import Mathlib

/-!
Verification of the chronopick calendar/date-selection engine.

The development shallowly embeds the relevant source functions:
* a day-granularity model of JS `Date` values (`DT`: an absolute day index
  plus wall-clock time fields) for the constraint evaluator
  (`isDateDisabled`, `getFirstFocusableDate`) and the selection engine
  (`handleDayClick`, `handleTimeChange`, `setFocusedDate`);
* a civil (year/month/day) model with proleptic-Gregorian conversions for
  `addMonths`, `handleMonthSelect` and the formatter (`formatDate`,
  `parseDate`), where JS `Date` component normalization matters.

Machine integers do not overflow in the modelled code (all values are far
below 2^53), so `Int`/`Nat` are used directly.
-/

/-- A JS `Date` value at the granularity the engine inspects: an absolute
day index (days since the epoch, negative allowed) plus hour / minute /
second / millisecond fields.  All `getFullYear/getMonth/getDate`
comparisons in the day-level code factor through the day index. -/
structure DT where
  day : Int
  hour : Int
  minute : Int
  sec : Int
  ms : Int
deriving DecidableEq, Repr

/-- The `disabledDates` prop: either an explicit list of dates or a
predicate (`Date[] | ((d: Date) => boolean)`). -/
inductive DisabledDates where
  | list : List DT → DisabledDates
  | pred : (DT → Bool) → DisabledDates

/-- `isSameDay` from dateUtils.ts: year/month/day equality, i.e. equality
of day indices. -/
def isSameDay (a b : DT) : Bool := a.day == b.day

/-- `isBeforeDay` from dateUtils.ts: strict day-only comparison. -/
def isBeforeDay (a b : DT) : Bool := a.day < b.day

/-- `isAfterDay` from dateUtils.ts. -/
def isAfterDay (a b : DT) : Bool := b.day < a.day

/-- `isDateDisabled` from dateUtils.ts: before `minDate`, after `maxDate`,
or flagged by the `disabledDates` list/predicate. -/
def isDateDisabled (d : DT) (minD maxD : Option DT) (dis : Option DisabledDates) : Bool :=
  if minD.elim false (fun m => isBeforeDay d m) then true
  else if maxD.elim false (fun m => isAfterDay d m) then true
  else
    match dis with
    | some (DisabledDates.pred p) => p d
    | some (DisabledDates.list l) => l.any (fun x => isSameDay d x)
    | none => false

/-- `date.setHours(0,0,0,0)`: midnight-normalize a date, keeping its day. -/
def midnightOf (d : DT) : DT := ⟨d.day, 0, 0, 0, 0⟩

/-- `date.setDate(date.getDate() + n)`: shift by whole days. -/
def addDays (d : DT) (n : Int) : DT := { d with day := d.day + n }

/-- `setTime` from dateUtils.ts: set hours/minutes, zero seconds and ms. -/
def setTime (d : DT) (hours minutes : Int) : DT := ⟨d.day, hours, minutes, 0, 0⟩

/-- `isTimeEqual` from dateUtils.ts: equal hours and minutes. -/
def isTimeEqual (a b : DT) : Bool := a.hour == b.hour && a.minute == b.minute

/-- The bounded day-by-day scan inside `getFirstFocusableDate`
(`for (let i = 0; i < maxIterations; i++) ...`).  `none` means the loop
ended without finding an admissible date (fuel exhausted or the early
`break` on crossing `minDate`/`maxDate` fired). -/
def scanLoop (fuel : Nat) (d : DT) (minD maxD : Option DT) (dis : Option DisabledDates)
    (dir : Int) : Option DT :=
  match fuel with
  | 0 => none
  | Nat.succ f =>
    if !(isDateDisabled d minD maxD dis) then some d
    else
      let d1 := addDays d dir
      if dir == -1 && minD.elim false (fun m => isBeforeDay d1 m) then none
      else if dir == 1 && maxD.elim false (fun m => isAfterDay d1 m) then none
      else scanLoop f d1 minD maxD dis dir

/-- First fallback of `getFirstFocusableDate`: forward search from before
`minDate` returns `minDate` when it is admissible against max/disabled. -/
def fallbackMinFwd (cur : DT) (minD maxD : Option DT) (dis : Option DisabledDates)
    (dir : Int) : Option DT :=
  match minD with
  | some mn =>
    if dir == 1 && isAfterDay mn cur && !(isDateDisabled mn none maxD dis) then some mn else none
  | none => none

/-- Second fallback: backward search from after `maxDate` returns `maxDate`
when it is admissible against min/disabled. -/
def fallbackMaxBack (cur : DT) (minD maxD : Option DT) (dis : Option DisabledDates)
    (dir : Int) : Option DT :=
  match maxD with
  | some mx =>
    if dir == -1 && isBeforeDay mx cur && !(isDateDisabled mx minD none dis) then some mx else none
  | none => none

/-- Third fallback: prefer `minDate` whenever it is itself admissible. -/
def fallbackMinAny (minD maxD : Option DT) (dis : Option DisabledDates) : Option DT :=
  match minD with
  | some mn => if !(isDateDisabled mn none maxD dis) then some mn else none
  | none => none

/-- Fourth fallback: prefer `maxDate` whenever it is itself admissible. -/
def fallbackMaxAny (minD maxD : Option DT) (dis : Option DisabledDates) : Option DT :=
  match maxD with
  | some mx => if !(isDateDisabled mx minD none dis) then some mx else none
  | none => none

/-- The fallback cascade after the scan fails, ending in the original
`currentDate` escape hatch. -/
def scanFallbacks (cur : DT) (minD maxD : Option DT) (dis : Option DisabledDates)
    (dir : Int) : DT :=
  match fallbackMinFwd cur minD maxD dis dir with
  | some x => x
  | none =>
    match fallbackMaxBack cur minD maxD dis dir with
    | some x => x
    | none =>
      match fallbackMinAny minD maxD dis with
      | some x => x
      | none =>
        match fallbackMaxAny minD maxD dis with
        | some x => x
        | none => cur

/-- `getFirstFocusableDate` for a nonzero direction: midnight-normalize,
scan up to 730 days, then fall back. -/
def gffdDir (cur : DT) (minD maxD : Option DT) (dis : Option DisabledDates) (dir : Int) : DT :=
  match scanLoop 730 (midnightOf cur) minD maxD dis dir with
  | some d => d
  | none => scanFallbacks cur minD maxD dis dir

/-- `getFirstFocusableDate` from dateUtils.ts.  Direction 0 checks the
current date, then recurses forward, then backward. -/
def getFirstFocusableDate (cur : DT) (minD maxD : Option DT) (dis : Option DisabledDates)
    (dir : Int) : DT :=
  if dir == 0 then
    if !(isDateDisabled (midnightOf cur) minD maxD dis) then midnightOf cur
    else
      let fwd := gffdDir cur minD maxD dis 1
      if !(isSameDay fwd cur) && !(isDateDisabled fwd minD maxD dis) then fwd
      else gffdDir cur minD maxD dis (-1)
  else gffdDir cur minD maxD dis dir

/-- The selection mode (`ChronoPickMode`). -/
inductive ChronoPickMode where
  | single
  | multiple
  | range
deriving DecidableEq

/-- `SelectedDateType`: the loosely-typed selection value
(`Date | Date[] | DateRange | null`). -/
inductive SelectedDateType where
  | null
  | date (d : DT)
  | dates (l : List DT)
  | range (rFrom rTo : Option DT)
deriving DecidableEq

/-- The `value instanceof Date` probe. -/
def valueInstanceofDate : SelectedDateType → Option DT
  | SelectedDateType.date d => some d
  | _ => none

/-- The `Array.isArray(value) ? value : []` probe. -/
def valueAsArray : SelectedDateType → List DT
  | SelectedDateType.dates l => l
  | _ => []

/-- `(value as DateRange)?.from`: `undefined` (falsy) on non-range shapes. -/
def valueRangeFrom : SelectedDateType → Option DT
  | SelectedDateType.range f _ => f
  | _ => none

/-- `(value as DateRange)?.to`. -/
def valueRangeTo : SelectedDateType → Option DT
  | SelectedDateType.range _ t => t
  | _ => none

/-- Observable effects of one `handleDayClick` call: the `onChange`
argument, whether `onVisibilityChange(false)` fired, whether
`setTempRangeEnd(null)` fired, and the `setFocusedDate` argument. -/
structure ClickResult where
  newValue : SelectedDateType
  closeSignal : Bool
  clearTempRange : Bool
  focusTarget : DT
deriving DecidableEq

/-- The hour/minute merge of `handleDayClick`: the candidate day merged
with the time-picker state, except that in Single mode an existing
date-valued selection keeps its own hour/minute (`value.getHours()`
precedence); identity when time is disabled. -/
def clickFinalDay (mode : ChronoPickMode) (value : SelectedDateType) (enableTime : Bool)
    (selectedHour selectedMinute : Int) (day : DT) : DT :=
  let currentHour :=
    match valueInstanceofDate value, mode with
    | some v, ChronoPickMode.single => v.hour
    | _, _ => selectedHour
  let currentMinute :=
    match valueInstanceofDate value, mode with
    | some v, ChronoPickMode.single => v.minute
    | _, _ => selectedMinute
  if enableTime then setTime day currentHour currentMinute else day

/-- `handleDayClick` from the `useChronoPickCore` hook.  Returns `none`
exactly when the clicked day is disabled (the early-return no-op). -/
def handleDayClick (mode : ChronoPickMode) (value : SelectedDateType) (enableTime : Bool)
    (selectedHour selectedMinute : Int) (minD maxD : Option DT) (dis : Option DisabledDates)
    (day : DT) : Option ClickResult :=
  if isDateDisabled day minD maxD dis then none
  else
    let finalDay := clickFinalDay mode value enableTime selectedHour selectedMinute day
    match mode with
    | ChronoPickMode.single =>
      some ⟨SelectedDateType.date finalDay, !enableTime, false, finalDay⟩
    | ChronoPickMode.multiple =>
      let currentDates := valueAsArray value
      let sameEntry := fun d =>
        isSameDay d finalDay && (if enableTime then isTimeEqual d finalDay else true)
      if currentDates.any sameEntry then
        some ⟨SelectedDateType.dates (currentDates.filter (fun d => !(sameEntry d))),
              false, false, finalDay⟩
      else
        some ⟨SelectedDateType.dates (currentDates ++ [finalDay]), false, false, finalDay⟩
    | ChronoPickMode.range =>
      match valueRangeFrom value, valueRangeTo value with
      | some fd, none =>
        if isSameDay fd finalDay then
          some ⟨SelectedDateType.range none none, !enableTime, false, finalDay⟩
        else if isBeforeDay finalDay fd then
          some ⟨SelectedDateType.range (some finalDay) (some fd), !enableTime, false, finalDay⟩
        else
          some ⟨SelectedDateType.range (some fd) (some finalDay), !enableTime, false, finalDay⟩
      | _, _ =>
        some ⟨SelectedDateType.range (some finalDay) none, false, true, finalDay⟩

/-- One click as a transformation of the externally-held `value` prop:
identity on a disabled day (no `onChange`), otherwise the `onChange`
argument. -/
def clickStep (mode : ChronoPickMode) (enableTime : Bool) (selectedHour selectedMinute : Int)
    (minD maxD : Option DT) (dis : Option DisabledDates) (value : SelectedDateType)
    (day : DT) : SelectedDateType :=
  match handleDayClick mode value enableTime selectedHour selectedMinute minD maxD dis day with
  | none => value
  | some r => r.newValue

/-- The Range-mode ordering invariant: whenever both ends are set,
`from` is on the same or an earlier day than `to`. -/
def rangeInv (v : SelectedDateType) : Prop :=
  ∀ a b : DT, v = SelectedDateType.range (some a) (some b) → a.day ≤ b.day

/-- Day-membership in a selection list (day granularity). -/
def hasDay (l : List DT) (x : Int) : Bool := l.any (fun d => d.day == x)

/-- Observable effects of one `handleTimeChange` call. -/
structure TimeChangeResult where
  selectedHour : Int
  selectedMinute : Int
  changed : Option SelectedDateType
  focusReq : Option DT
deriving DecidableEq

/-- `handleTimeChange` from the `useChronoPickCore` hook: always updates
the internal hour/minute pair; additionally re-applies the time to the
active date in Single mode (value is a date) or Range mode (`from` only,
or a complete range, targeting `to`), each guarded by admissibility. -/
def handleTimeChange (mode : ChronoPickMode) (value : SelectedDateType)
    (hourArg minuteArg : Option Int) (selectedHour selectedMinute : Int)
    (minD maxD : Option DT) (dis : Option DisabledDates) : TimeChangeResult :=
  let newHour := hourArg.getD selectedHour
  let newMinute := minuteArg.getD selectedMinute
  match mode, valueInstanceofDate value, valueRangeFrom value, valueRangeTo value with
  | ChronoPickMode.single, some v, _, _ =>
    let nd := setTime v newHour newMinute
    if !(isDateDisabled nd minD maxD dis) then
      ⟨newHour, newMinute, some (SelectedDateType.date nd), some nd⟩
    else ⟨newHour, newMinute, none, none⟩
  | ChronoPickMode.range, _, some fd, none =>
    let nd := setTime fd newHour newMinute
    if !(isDateDisabled nd minD maxD dis) then
      ⟨newHour, newMinute, some (SelectedDateType.range (some nd) none), some nd⟩
    else ⟨newHour, newMinute, none, none⟩
  | ChronoPickMode.range, _, some fd, some td =>
    let nd := setTime td newHour newMinute
    if !(isDateDisabled nd minD maxD dis) then
      ⟨newHour, newMinute, some (SelectedDateType.range (some fd) (some nd)), some nd⟩
    else ⟨newHour, newMinute, none, none⟩
  | _, _, _, _ => ⟨newHour, newMinute, none, none⟩

/-- JS leap-year rule (proleptic Gregorian, as JS `Date` uses). -/
def isLeap (y : Int) : Bool := y % 4 == 0 && (y % 100 != 0 || y % 400 == 0)

/-- Number of days in month `m0` (0-based) of year `y`. -/
def daysInMonthC (y m0 : Int) : Int :=
  if m0 == 1 then (if isLeap y then 29 else 28)
  else if m0 == 3 || m0 == 5 || m0 == 8 || m0 == 10 then 30
  else 31

/-- Day index (days since 1970-01-01) of civil date `(y, m0, d)` with
`m0` 0-based in `[0, 11]`; linear in `d`, so an out-of-range `d` denotes
the correspondingly shifted day exactly as JS `Date` normalizes it. -/
def daysFromCivil (y m0 d : Int) : Int :=
  let m := m0 + 1
  let y1 := if m ≤ 2 then y - 1 else y
  let era := y1 / 400
  let yoe := y1 - era * 400
  let mp := (m + 9) % 12
  let doy := (153 * mp + 2) / 5 + d - 1
  let doe := yoe * 365 + yoe / 4 - yoe / 100 + doy
  era * 146097 + doe - 719468

/-- Civil date `(year, month0, day)` of a day index (Gregorian). -/
def civilFromDays (z : Int) : Int × Int × Int :=
  let z1 := z + 719468
  let era := z1 / 146097
  let doe := z1 - era * 146097
  let yoe := (doe - doe / 1460 + doe / 36524 - doe / 146096) / 365
  let y := yoe + era * 400
  let doy := doe - (365 * yoe + yoe / 4 - yoe / 100)
  let mp := (5 * doy + 2) / 153
  let d := doy - (153 * mp + 2) / 5 + 1
  let m := if mp < 10 then mp + 3 else mp - 9
  (if m ≤ 2 then y + 1 else y, m - 1, d)

/-- The JS `Date(year, ...)` constructor rule mapping years 0-99 to
1900-1999. -/
def jsYearMap (y : Int) : Int := if 0 ≤ y && y ≤ 99 then y + 1900 else y

/-- Day index built by `new Date(y, m, d)` for arbitrary month/day
arguments (month overflow floors into the year, day overflow is linear). -/
def jsDateIndex (y m d : Int) : Int :=
  daysFromCivil (jsYearMap y + m / 12) (m % 12) d

/-- `getFullYear()` of a day index. -/
def getYearOf (z : Int) : Int := (civilFromDays z).1

/-- `getMonth()` of a day index (0-based). -/
def getMonthOf (z : Int) : Int := (civilFromDays z).2.1

/-- The calendar zoom level (`CalendarView`). -/
inductive CalendarView where
  | days
  | months
  | years
deriving DecidableEq

/-- Observable outcome of `handleMonthSelect`: the new focused date, the
new anchor (`currentMonthDate`, as the day index of day 1 of its month),
and the new view. -/
structure MonthSelectResult where
  focusTarget : DT
  anchorIndex : Int
  view : CalendarView
deriving DecidableEq

/-- `handleMonthSelect` from the hook: build day 1 of
`(focusedDate.getFullYear(), monthIndex)`, clamp it with the direction-0
search, anchor on the clamp's month, and switch to the Days view. -/
def handleMonthSelect (focusedDate : DT) (minD maxD : Option DT) (dis : Option DisabledDates)
    (monthIndex : Int) : MonthSelectResult :=
  let newDate : DT := ⟨jsDateIndex (getYearOf focusedDate.day) monthIndex 1, 0, 0, 0, 0⟩
  let target := getFirstFocusableDate newDate minD maxD dis 0
  ⟨target, jsDateIndex (getYearOf target.day) (getMonthOf target.day) 1, CalendarView.days⟩

/-- Observable outcome of `setFocusedDate`: the clamped focused date and
the (possibly updated) anchor day index. -/
structure FocusResult where
  focusedDate : DT
  anchorIndex : Int
deriving DecidableEq

/-- `setFocusedDate` from the hook: clamp through the direction-0 search
and re-anchor the visible month when the clamp leaves it. -/
def setFocusedDateM (d : DT) (minD maxD : Option DT) (dis : Option DisabledDates)
    (anchorIndex : Int) : FocusResult :=
  let cl := getFirstFocusableDate d minD maxD dis 0
  if getMonthOf cl.day != getMonthOf anchorIndex || getYearOf cl.day != getYearOf anchorIndex then
    ⟨cl, jsDateIndex (getYearOf cl.day) (getMonthOf cl.day) 1⟩
  else ⟨cl, anchorIndex⟩

/-- `newDate.setMonth(newDate.getMonth() + months)`: floored month
carry, then JS day normalization (a valid day-of-month can overflow at
most into the following month). -/
def addMonthsSetMonth (y m0 d months : Int) : Int × Int × Int :=
  if d ≤ daysInMonthC (y + (m0 + months) / 12) ((m0 + months) % 12) then
    (y + (m0 + months) / 12, (m0 + months) % 12, d)
  else if (m0 + months) % 12 == 11 then
    (y + (m0 + months) / 12 + 1, (0 : Int),
     d - daysInMonthC (y + (m0 + months) / 12) ((m0 + months) % 12))
  else
    (y + (m0 + months) / 12, (m0 + months) % 12 + 1,
     d - daysInMonthC (y + (m0 + months) / 12) ((m0 + months) % 12))

/-- `newDate.setDate(0)`: roll back to the last day of the preceding
month. -/
def setDateZero (t : Int × Int × Int) : Int × Int × Int :=
  if t.2.1 == 0 then (t.1 - 1, (11 : Int), daysInMonthC (t.1 - 1) 11)
  else (t.1, t.2.1 - 1, daysInMonthC t.1 (t.2.1 - 1))

/-- `addMonths` from dateUtils.ts at the civil level: shift the month,
then clamp with `setDate(0)` when the day-of-month changed. -/
def addMonthsCiv (y m0 d : Int) (months : Int) : Int × Int × Int :=
  let t := addMonthsSetMonth y m0 d months
  if t.2.2 != d then setDateZero t else t

/-- Validity of a civil date against the month length. -/
def validCivil (y m d : Int) : Prop := 0 ≤ m ∧ m ≤ 11 ∧ 1 ≤ d ∧ d ≤ daysInMonthC y m

instance (y m d : Int) : Decidable (validCivil y m d) := by
  unfold validCivil
  infer_instance

/-- The Multiple-mode list transform of a (time-disabled) day click:
remove every same-day entry if one exists, else append the day. -/
def multiToggle (l : List DT) (day : DT) : List DT :=
  if l.any (fun d => isSameDay d day) then l.filter (fun d => !(isSameDay d day)) else l ++ [day]

/-- The format tokens of dateUtils.ts, as character lists. -/
def yyyyTok : List Char := ['Y', 'Y', 'Y', 'Y']

def mmTok : List Char := ['M', 'M']

def ddTok : List Char := ['D', 'D']

def monthTok : List Char := ['M', 'o', 'n', 't', 'h']

def monTok : List Char := ['M', 'o', 'n']

def dayTok : List Char := ['D', 'a', 'y']

def hhTok : List Char := ['h', 'h']

def minuteTok : List Char := ['m', 'm']

def ssTok : List Char := ['s', 's']

def kTok : List Char := ['K']

/-- `String.prototype.indexOf`: index of the first occurrence of `t` in
`s`, `none` when absent (`-1` in JS; callers only test `> -1`). -/
def idxOf : List Char → List Char → Option Nat
  | [], t => if t.isEmpty then some 0 else none
  | c :: r, t =>
    if (c :: r).take t.length = t then some 0 else (idxOf r t).map (· + 1)

/-- `t` occurs in `s` at position `i`. -/
def occursAt (s t : List Char) (i : Nat) : Prop := (s.drop i).take t.length = t

/-- Whether `t` occurs somewhere in `s` (`indexOf > -1`). -/
def containsTok (s t : List Char) : Bool := (idxOf s t).isSome

/-- `String.prototype.replace` with a plain-string pattern: replace the
first occurrence only. -/
def replaceFirst (s t r : List Char) : List Char :=
  match idxOf s t with
  | none => s
  | some i => s.take i ++ r ++ s.drop (i + t.length)

/-- `s.substring(i, i + len)` (clamping, as in JS). -/
def sliceAt (s : List Char) (i len : Nat) : List Char := (s.drop i).take len

def isDigitC (c : Char) : Bool := 48 ≤ c.toNat && c.toNat ≤ 57

def isWhitespaceC (c : Char) : Bool :=
  c == ' ' || c == '\t' || c == '\n' || c == '\r'

def digitToNat (c : Char) : Nat := c.toNat - 48

def digitsToNat (ds : List Char) : Nat := ds.foldl (fun a c => a * 10 + digitToNat c) 0

/-- Longest digit run at the front, as a number; `none` when empty
(`NaN`). -/
def parseNatDigits (r : List Char) : Option Nat :=
  let ds := r.takeWhile isDigitC
  if ds.isEmpty then none else some (digitsToNat ds)

/-- `parseInt(s, 10)`: skip whitespace, optional sign, longest digit
prefix; `none` models `NaN`. -/
def parseIntJS (s : List Char) : Option Int :=
  match s.dropWhile isWhitespaceC with
  | [] => none
  | c :: r =>
    if c == '-' then (parseNatDigits r).map (fun v => -(v : Int))
    else if c == '+' then (parseNatDigits r).map (fun v => (v : Int))
    else (parseNatDigits (c :: r)).map (fun v => (v : Int))

def digitChar (n : Nat) : Char :=
  match n with
  | 0 => '0' | 1 => '1' | 2 => '2' | 3 => '3' | 4 => '4'
  | 5 => '5' | 6 => '6' | 7 => '7' | 8 => '8' | _ => '9'

/-- Decimal digits of `n`, most significant first (fuel-structured; the
fuel `n + 1` always suffices since the argument shrinks by a factor of
ten per step). -/
def natDigitsAux : Nat → Nat → List Char
  | 0, _ => []
  | Nat.succ f, n =>
    if n < 10 then [digitChar n]
    else natDigitsAux f (n / 10) ++ [digitChar (n % 10)]

def natDigits (n : Nat) : List Char := natDigitsAux (n + 1) n

/-- `String(i)` for an integer. -/
def intRepr (i : Int) : List Char :=
  if i < 0 then '-' :: natDigits (-i).toNat else natDigits i.toNat

/-- `String.prototype.padStart(2, "0")`. -/
def padStart2 (s : List Char) : List Char := List.replicate (2 - s.length) '0' ++ s

def monthNamesFull : List (List Char) :=
  ["January", "February", "March", "April", "May", "June", "July", "August",
   "September", "October", "November", "December"].map String.toList

def monthNamesShort : List (List Char) :=
  ["Jan", "Feb", "Mar", "Apr", "May", "Jun", "Jul", "Aug", "Sep", "Oct", "Nov",
   "Dec"].map String.toList

def dayNamesShort : List (List Char) :=
  ["Sun", "Mon", "Tue", "Wed", "Thu", "Fri", "Sat"].map String.toList

/-- A JS `Date` at civil granularity for the formatter: normalized
year / month (0-based) / day-of-month plus time fields. -/
structure DateC where
  year : Int
  month : Int
  day : Int
  hour : Int
  minute : Int
  sec : Int
deriving DecidableEq, Repr

/-- `getDay()`: weekday index of the civil date (1970-01-01 was a
Thursday, index 4). -/
def jsGetDay (dt : DateC) : Int := (daysFromCivil dt.year dt.month dt.day + 4) % 7

/-- Day-of-month borrow/carry normalization of JS `Date` (bounded fuel;
every use in the embedded code stays far below it, since parsed fields
come from two-character slices). -/
def normDaysC : Nat → Int → Int → Int → Int × Int × Int
  | 0, y, m, d => (y, m, d)
  | Nat.succ f, y, m, d =>
    if d < 1 then
      (if m == 0 then normDaysC f (y - 1) 11 (d + daysInMonthC (y - 1) 11)
       else normDaysC f y (m - 1) (d + daysInMonthC y (m - 1)))
    else if daysInMonthC y m < d then
      (if m == 11 then normDaysC f (y + 1) 0 (d - daysInMonthC y m)
       else normDaysC f y (m + 1) (d - daysInMonthC y m))
    else (y, m, d)

/-- `new Date(y, m, d, h, mi, s)`: the 0-99 year rule, floored month
carry, time-of-day spill into days, and day normalization. -/
def mkJsDate (y m d h mi s : Int) : DateC :=
  let y0 := jsYearMap y
  let y1 := y0 + m / 12
  let m1 := m % 12
  let total := h * 3600 + mi * 60 + s
  let t := normDaysC 500 y1 m1 (d + total / 86400)
  ⟨t.1, t.2.1, t.2.2, total % 86400 / 3600, total % 86400 % 3600 / 60,
   total % 86400 % 60⟩

/-- `formatDate` from dateUtils.ts: token substitution, each token
replaced at most once, time tokens first when enabled, then YYYY, MM,
DD, Month, Mon, Day. -/
def formatDate (dt : DateC) (fmt : List Char) (enableTime : Bool) : List Char :=
  let f1 :=
    if enableTime then
      let hours1 := dt.hour % 12
      let hours2 := if hours1 == 0 then (12 : Int) else hours1
      let fa := replaceFirst fmt hhTok (padStart2 (intRepr hours2))
      let fb := replaceFirst fa minuteTok (padStart2 (intRepr dt.minute))
      let fc := replaceFirst fb ssTok (padStart2 (intRepr dt.sec))
      replaceFirst fc kTok (if 12 ≤ dt.hour then ['P', 'M'] else ['A', 'M'])
    else fmt
  let f2 := replaceFirst f1 yyyyTok (intRepr dt.year)
  let f3 := replaceFirst f2 mmTok (padStart2 (intRepr (dt.month + 1)))
  let f4 := replaceFirst f3 ddTok (padStart2 (intRepr dt.day))
  let f5 := replaceFirst f4 monthTok (monthNamesFull.getD dt.month.toNat [])
  let f6 := replaceFirst f5 monTok (monthNamesShort.getD dt.month.toNat [])
  replaceFirst f6 dayTok (dayNamesShort.getD (jsGetDay dt).toNat [])

def toUpperC (c : Char) : Char :=
  if 97 ≤ c.toNat && c.toNat ≤ 122 then Char.ofNat (c.toNat - 32) else c

/-- `parseDate` from dateUtils.ts: slice each token's span out of the
input at the token's index in the pattern, parse numerically, default
missing fields from `now` (dates) or zero (times), apply the AM/PM
adjustment, build the candidate `Date` and reject it when the civil
components do not round-trip (`none` models the `null` return). -/
def parseDate (s fmt : List Char) (enableTime : Bool) (now : DateC) : Option DateC :=
  if s.isEmpty then none
  else
    let year? : Option Int :=
      match idxOf fmt yyyyTok with
      | some i => parseIntJS (sliceAt s i 4)
      | none => some now.year
    let month? : Option Int :=
      match idxOf fmt mmTok with
      | some i => (parseIntJS (sliceAt s i 2)).map (fun v => v - 1)
      | none => some now.month
    let day? : Option Int :=
      match idxOf fmt ddTok with
      | some i => parseIntJS (sliceAt s i 2)
      | none => some now.day
    let hours0? : Option Int :=
      if enableTime then
        match idxOf fmt hhTok with
        | some i => parseIntJS (sliceAt s i 2)
        | none => some 0
      else some 0
    let minutes? : Option Int :=
      if enableTime then
        match idxOf fmt minuteTok with
        | some i => parseIntJS (sliceAt s i 2)
        | none => some 0
      else some 0
    let seconds? : Option Int :=
      if enableTime then
        match idxOf fmt ssTok with
        | some i => parseIntJS (sliceAt s i 2)
        | none => some 0
      else some 0
    let hours? : Option Int :=
      if enableTime then
        match idxOf fmt kTok with
        | some i =>
          let amPm := (sliceAt s i 2).map toUpperC
          if amPm = ['P', 'M'] then
            hours0?.map (fun h => if h < 12 then h + 12 else h)
          else if amPm = ['A', 'M'] then
            hours0?.map (fun h => if h == 12 then (0 : Int) else h)
          else hours0?
        | none => hours0?
      else hours0?
    match year?, month?, day?, hours?, minutes?, seconds? with
    | some y, some mo, some d, some h, some mi, some se =>
      let p := mkJsDate y mo d h mi se
      if p.year == y && p.month == mo && p.day == d then some p else none
    | _, _, _, _, _, _ => none

theorem scanLoop_admissible {fuel : Nat} {d r : DT} {minD maxD : Option DT}
    {dis : Option DisabledDates} {dir : Int}
    (h : scanLoop fuel d minD maxD dis dir = some r) :
    isDateDisabled r minD maxD dis = false := by
  induction fuel generalizing d with
  | zero => simp [scanLoop] at h
  | succ f ih =>
    rw [scanLoop] at h
    by_cases hd : isDateDisabled d minD maxD dis
    · simp only [hd, Bool.not_true, Bool.false_eq_true, if_false] at h
      split at h
      · exact absurd h (by simp)
      · split at h
        · exact absurd h (by simp)
        · exact ih h
    · simp only [Bool.not_eq_true] at hd
      simp only [hd, Bool.not_false, if_true, Option.some.injEq] at h
      exact h ▸ hd

theorem fallbackMinFwd_eq_some {cur x : DT} {minD maxD : Option DT}
    {dis : Option DisabledDates} {dir : Int} :
    fallbackMinFwd cur minD maxD dis dir = some x → minD = some x := by
  cases minD with
  | none => intro h; simp [fallbackMinFwd] at h
  | some y =>
    intro h
    simp only [fallbackMinFwd] at h
    split at h
    · cases h; rfl
    · cases h

theorem fallbackMaxBack_eq_some {cur x : DT} {minD maxD : Option DT}
    {dis : Option DisabledDates} {dir : Int} :
    fallbackMaxBack cur minD maxD dis dir = some x → maxD = some x := by
  cases maxD with
  | none => intro h; simp [fallbackMaxBack] at h
  | some y =>
    intro h
    simp only [fallbackMaxBack] at h
    split at h
    · cases h; rfl
    · cases h

theorem fallbackMinAny_eq_some {x : DT} {minD maxD : Option DT}
    {dis : Option DisabledDates} :
    fallbackMinAny minD maxD dis = some x → minD = some x := by
  cases minD with
  | none => intro h; simp [fallbackMinAny] at h
  | some y =>
    intro h
    simp only [fallbackMinAny] at h
    split at h
    · cases h; rfl
    · cases h

theorem fallbackMaxAny_eq_some {x : DT} {minD maxD : Option DT}
    {dis : Option DisabledDates} :
    fallbackMaxAny minD maxD dis = some x → maxD = some x := by
  cases maxD with
  | none => intro h; simp [fallbackMaxAny] at h
  | some y =>
    intro h
    simp only [fallbackMaxAny] at h
    split at h
    · cases h; rfl
    · cases h

theorem scanFallbacks_cases (cur : DT) (minD maxD : Option DT) (dis : Option DisabledDates)
    (dir : Int) :
    minD = some (scanFallbacks cur minD maxD dis dir) ∨
    maxD = some (scanFallbacks cur minD maxD dis dir) ∨
    scanFallbacks cur minD maxD dis dir = cur := by
  unfold scanFallbacks
  match h1 : fallbackMinFwd cur minD maxD dis dir with
  | some x => exact Or.inl (fallbackMinFwd_eq_some h1)
  | none =>
    match h2 : fallbackMaxBack cur minD maxD dis dir with
    | some x => exact Or.inr (Or.inl (fallbackMaxBack_eq_some h2))
    | none =>
      match h3 : fallbackMinAny minD maxD dis with
      | some x => exact Or.inl (fallbackMinAny_eq_some h3)
      | none =>
        match h4 : fallbackMaxAny minD maxD dis with
        | some x => exact Or.inr (Or.inl (fallbackMaxAny_eq_some h4))
        | none => exact Or.inr (Or.inr rfl)

theorem gffdDir_cases (cur : DT) (minD maxD : Option DT) (dis : Option DisabledDates)
    (dir : Int) :
    isDateDisabled (gffdDir cur minD maxD dis dir) minD maxD dis = false ∨
    minD = some (gffdDir cur minD maxD dis dir) ∨
    maxD = some (gffdDir cur minD maxD dis dir) ∨
    gffdDir cur minD maxD dis dir = cur := by
  unfold gffdDir
  match h : scanLoop 730 (midnightOf cur) minD maxD dis dir with
  | some d => exact Or.inl (scanLoop_admissible h)
  | none => exact Or.inr (scanFallbacks_cases cur minD maxD dis dir)

/-- Result characterization shared by the direction-0 and directional
entry points: the returned date is admissible, or is the `minDate` /
`maxDate` object, or is the original `currentDate` escape hatch. -/
theorem gffd_characterization (cur : DT) (minD maxD : Option DT) (dis : Option DisabledDates)
    (dir : Int) :
    isDateDisabled (getFirstFocusableDate cur minD maxD dis dir) minD maxD dis = false ∨
    minD = some (getFirstFocusableDate cur minD maxD dis dir) ∨
    maxD = some (getFirstFocusableDate cur minD maxD dis dir) ∨
    getFirstFocusableDate cur minD maxD dis dir = cur := by
  unfold getFirstFocusableDate
  by_cases h0 : dir == 0
  · simp only [h0, if_true]
    by_cases hd : isDateDisabled (midnightOf cur) minD maxD dis
    · simp only [hd, Bool.not_true, Bool.false_eq_true, if_false]
      by_cases hc : (!(isSameDay (gffdDir cur minD maxD dis 1) cur) &&
          !(isDateDisabled (gffdDir cur minD maxD dis 1) minD maxD dis)) = true
      · simp only [hc, if_true]
        have := hc
        rw [Bool.and_eq_true] at this
        exact Or.inl (by simpa using this.2)
      · simp only [hc, if_false]
        exact gffdDir_cases cur minD maxD dis (-1)
    · simp only [Bool.not_eq_true] at hd
      simp only [hd, Bool.not_false, if_true]
      exact Or.inl trivial
  · simp only [h0, if_false]
    exact gffdDir_cases cur minD maxD dis dir

theorem scanLoop_stable_back (mn : DT) (maxD : Option DT) (dis : Option DisabledDates) :
    ∀ (k : Nat) (d : DT) (f1 f2 : Nat), d.day - mn.day ≤ (k : Int) → k + 1 ≤ f1 → k + 1 ≤ f2 →
    scanLoop f1 d (some mn) maxD dis (-1) = scanLoop f2 d (some mn) maxD dis (-1) := by
  intro k
  induction k with
  | zero =>
    intro d f1 f2 hk h1 h2
    obtain ⟨a, rfl⟩ : ∃ a, f1 = a + 1 := ⟨f1 - 1, by omega⟩
    obtain ⟨b, rfl⟩ : ∃ b, f2 = b + 1 := ⟨f2 - 1, by omega⟩
    rw [scanLoop, scanLoop]
    by_cases hd : isDateDisabled d (some mn) maxD dis
    · have hb : isBeforeDay (addDays d (-1)) mn = true := by
        simp only [isBeforeDay, addDays, decide_eq_true_eq]
        omega
      simp [hd, hb]
    · simp only [Bool.not_eq_true] at hd
      simp [hd]
  | succ k ih =>
    intro d f1 f2 hk h1 h2
    obtain ⟨a, rfl⟩ : ∃ a, f1 = a + 1 := ⟨f1 - 1, by omega⟩
    obtain ⟨b, rfl⟩ : ∃ b, f2 = b + 1 := ⟨f2 - 1, by omega⟩
    rw [scanLoop, scanLoop]
    by_cases hd : isDateDisabled d (some mn) maxD dis
    · by_cases hb : isBeforeDay (addDays d (-1)) mn
      · simp [hd, hb]
      · simp only [isBeforeDay, addDays, decide_eq_true_eq, not_lt] at hb
        have hstep : (addDays d (-1)).day - mn.day ≤ (k : Int) := by
          simp only [addDays]
          omega
        have := ih (addDays d (-1)) a b hstep (by omega) (by omega)
        simp only [hd, Bool.not_true, Bool.false_eq_true, if_false]
        have hb' : isBeforeDay (addDays d (-1)) mn = false := by
          simp only [isBeforeDay, addDays, decide_eq_false_iff_not, not_lt]
          omega
        simp [hb', this]
    · simp only [Bool.not_eq_true] at hd
      simp [hd]

theorem scanLoop_stable_fwd (mx : DT) (minD : Option DT) (dis : Option DisabledDates) :
    ∀ (k : Nat) (d : DT) (f1 f2 : Nat), mx.day - d.day ≤ (k : Int) → k + 1 ≤ f1 → k + 1 ≤ f2 →
    scanLoop f1 d minD (some mx) dis 1 = scanLoop f2 d minD (some mx) dis 1 := by
  intro k
  induction k with
  | zero =>
    intro d f1 f2 hk h1 h2
    obtain ⟨a, rfl⟩ : ∃ a, f1 = a + 1 := ⟨f1 - 1, by omega⟩
    obtain ⟨b, rfl⟩ : ∃ b, f2 = b + 1 := ⟨f2 - 1, by omega⟩
    rw [scanLoop, scanLoop]
    by_cases hd : isDateDisabled d minD (some mx) dis
    · have hb : isAfterDay (addDays d 1) mx = true := by
        simp only [isAfterDay, addDays, decide_eq_true_eq]
        omega
      simp [hd, hb]
    · simp only [Bool.not_eq_true] at hd
      simp [hd]
  | succ k ih =>
    intro d f1 f2 hk h1 h2
    obtain ⟨a, rfl⟩ : ∃ a, f1 = a + 1 := ⟨f1 - 1, by omega⟩
    obtain ⟨b, rfl⟩ : ∃ b, f2 = b + 1 := ⟨f2 - 1, by omega⟩
    rw [scanLoop, scanLoop]
    by_cases hd : isDateDisabled d minD (some mx) dis
    · by_cases hb : isAfterDay (addDays d 1) mx
      · simp [hd, hb]
      · simp only [isAfterDay, addDays, decide_eq_true_eq, not_lt] at hb
        have hstep : mx.day - (addDays d 1).day ≤ (k : Int) := by
          simp only [addDays]
          omega
        have := ih (addDays d 1) a b hstep (by omega) (by omega)
        simp only [hd, Bool.not_true, Bool.false_eq_true, if_false]
        have hb' : isAfterDay (addDays d 1) mx = false := by
          simp only [isAfterDay, addDays, decide_eq_false_iff_not, not_lt]
          omega
        simp [hb', this]
    · simp only [Bool.not_eq_true] at hd
      simp [hd]

/-- C1: for every starting date, constraint set (optional min/max, list or
predicate disablement) and direction in \x7b-1, 0, 1\x7d,
`getFirstFocusableDate` terminates within the 730-iteration scan cap (the
model's scan is structurally bounded by that fuel, including the
direction-0 case which recurses once forward and once backward) and
returns a date that is admissible or one of the documented fallbacks
(`minDate`, `maxDate`, or the original start date); moreover the
directional scan stops early after crossing `minDate` going backward
(resp. `maxDate` going forward): the 730-fuel scan equals the scan whose
fuel is just enough to reach the boundary. -/
theorem getFirstFocusableDate_cap_and_result (cur : DT) (minD maxD : Option DT)
    (dis : Option DisabledDates) (dir : Int) (hdir : dir = -1 ∨ dir = 0 ∨ dir = 1) :
    (isDateDisabled (getFirstFocusableDate cur minD maxD dis dir) minD maxD dis = false ∨
     minD = some (getFirstFocusableDate cur minD maxD dis dir) ∨
     maxD = some (getFirstFocusableDate cur minD maxD dis dir) ∨
     getFirstFocusableDate cur minD maxD dis dir = cur) ∧
    (∀ mn, minD = some mn →
      scanLoop 730 (midnightOf cur) minD maxD dis (-1) =
      scanLoop (min ((cur.day - mn.day).toNat + 1) 730) (midnightOf cur) minD maxD dis (-1)) ∧
    (∀ mx, maxD = some mx →
      scanLoop 730 (midnightOf cur) minD maxD dis 1 =
      scanLoop (min ((mx.day - cur.day).toNat + 1) 730) (midnightOf cur) minD maxD dis 1) := by
  refine ⟨gffd_characterization cur minD maxD dis dir, ?_, ?_⟩
  · rintro mn rfl
    by_cases hB : (cur.day - mn.day).toNat + 1 ≤ 730
    · rw [min_eq_left hB]
      exact scanLoop_stable_back mn maxD dis ((cur.day - mn.day).toNat) (midnightOf cur) 730
        ((cur.day - mn.day).toNat + 1) (by simp only [midnightOf]; exact Int.self_le_toNat _)
        hB (le_refl _)
    · rw [min_eq_right (by omega)]
  · rintro mx rfl
    by_cases hB : (mx.day - cur.day).toNat + 1 ≤ 730
    · rw [min_eq_left hB]
      exact scanLoop_stable_fwd mx minD dis ((mx.day - cur.day).toNat) (midnightOf cur) 730
        ((mx.day - cur.day).toNat + 1) (by simp only [midnightOf]; exact Int.self_le_toNat _)
        hB (le_refl _)
    · rw [min_eq_right (by omega)]

theorem getFirstFocusableDate_cap_and_result_witness :
    (isDateDisabled
        (getFirstFocusableDate ⟨0, 9, 30, 0, 0⟩ (some ⟨-5, 0, 0, 0, 0⟩) (some ⟨5, 0, 0, 0, 0⟩)
          (some (DisabledDates.list [⟨0, 0, 0, 0, 0⟩])) 1)
        (some ⟨-5, 0, 0, 0, 0⟩) (some ⟨5, 0, 0, 0, 0⟩)
        (some (DisabledDates.list [⟨0, 0, 0, 0, 0⟩])) = false ∨
     some ⟨-5, 0, 0, 0, 0⟩ = some (getFirstFocusableDate ⟨0, 9, 30, 0, 0⟩ (some ⟨-5, 0, 0, 0, 0⟩)
        (some ⟨5, 0, 0, 0, 0⟩) (some (DisabledDates.list [⟨0, 0, 0, 0, 0⟩])) 1) ∨
     some ⟨5, 0, 0, 0, 0⟩ = some (getFirstFocusableDate ⟨0, 9, 30, 0, 0⟩ (some ⟨-5, 0, 0, 0, 0⟩)
        (some ⟨5, 0, 0, 0, 0⟩) (some (DisabledDates.list [⟨0, 0, 0, 0, 0⟩])) 1) ∨
     getFirstFocusableDate ⟨0, 9, 30, 0, 0⟩ (some ⟨-5, 0, 0, 0, 0⟩) (some ⟨5, 0, 0, 0, 0⟩)
        (some (DisabledDates.list [⟨0, 0, 0, 0, 0⟩])) 1 = ⟨0, 9, 30, 0, 0⟩) ∧
    (scanLoop 730 (midnightOf ⟨0, 9, 30, 0, 0⟩) (some ⟨-5, 0, 0, 0, 0⟩) (some ⟨5, 0, 0, 0, 0⟩)
        (some (DisabledDates.list [⟨0, 0, 0, 0, 0⟩])) (-1) =
      scanLoop (min (((⟨0, 9, 30, 0, 0⟩ : DT).day - (⟨-5, 0, 0, 0, 0⟩ : DT).day).toNat + 1) 730)
        (midnightOf ⟨0, 9, 30, 0, 0⟩) (some ⟨-5, 0, 0, 0, 0⟩) (some ⟨5, 0, 0, 0, 0⟩)
        (some (DisabledDates.list [⟨0, 0, 0, 0, 0⟩])) (-1)) ∧
    (scanLoop 730 (midnightOf ⟨0, 9, 30, 0, 0⟩) (some ⟨-5, 0, 0, 0, 0⟩) (some ⟨5, 0, 0, 0, 0⟩)
        (some (DisabledDates.list [⟨0, 0, 0, 0, 0⟩])) 1 =
      scanLoop (min (((⟨5, 0, 0, 0, 0⟩ : DT).day - (⟨0, 9, 30, 0, 0⟩ : DT).day).toNat + 1) 730)
        (midnightOf ⟨0, 9, 30, 0, 0⟩) (some ⟨-5, 0, 0, 0, 0⟩) (some ⟨5, 0, 0, 0, 0⟩)
        (some (DisabledDates.list [⟨0, 0, 0, 0, 0⟩])) 1) :=
  ⟨(getFirstFocusableDate_cap_and_result ⟨0, 9, 30, 0, 0⟩ (some ⟨-5, 0, 0, 0, 0⟩)
      (some ⟨5, 0, 0, 0, 0⟩) (some (DisabledDates.list [⟨0, 0, 0, 0, 0⟩])) 1
      (Or.inr (Or.inr rfl))).1,
   (getFirstFocusableDate_cap_and_result ⟨0, 9, 30, 0, 0⟩ (some ⟨-5, 0, 0, 0, 0⟩)
      (some ⟨5, 0, 0, 0, 0⟩) (some (DisabledDates.list [⟨0, 0, 0, 0, 0⟩])) 1
      (Or.inr (Or.inr rfl))).2.1 ⟨-5, 0, 0, 0, 0⟩ rfl,
   (getFirstFocusableDate_cap_and_result ⟨0, 9, 30, 0, 0⟩ (some ⟨-5, 0, 0, 0, 0⟩)
      (some ⟨5, 0, 0, 0, 0⟩) (some (DisabledDates.list [⟨0, 0, 0, 0, 0⟩])) 1
      (Or.inr (Or.inr rfl))).2.2 ⟨5, 0, 0, 0, 0⟩ rfl⟩

theorem clickStep_rangeInv (enableTime : Bool) (selH selM : Int) (minD maxD : Option DT)
    (dis : Option DisabledDates) (v : SelectedDateType) (day : DT) (hv : rangeInv v) :
    rangeInv (clickStep ChronoPickMode.range enableTime selH selM minD maxD dis v day) := by
  unfold clickStep
  cases h : handleDayClick ChronoPickMode.range v enableTime selH selM minD maxD dis day with
  | none => exact hv
  | some r =>
    simp only [handleDayClick] at h
    split at h
    · cases h
    · rcases hf : valueRangeFrom v with _ | fd <;>
        rcases ht : valueRangeTo v with _ | td <;>
        simp only [hf, ht] at h
      · cases h; intro a b hab; simp at hab
      · cases h; intro a b hab; simp at hab
      · split at h
        · cases h; intro a b hab; simp at hab
        · split at h
          · rename_i hlt
            cases h
            intro a b hab
            simp only [SelectedDateType.range.injEq, Option.some.injEq] at hab
            obtain ⟨hab1, hab2⟩ := hab
            subst hab1; subst hab2
            simp only [isBeforeDay, decide_eq_true_eq] at hlt
            omega
          · rename_i hlt
            cases h
            intro a b hab
            simp only [SelectedDateType.range.injEq, Option.some.injEq] at hab
            obtain ⟨hab1, hab2⟩ := hab
            subst hab1; subst hab2
            simp only [isBeforeDay, decide_eq_true_eq, not_lt] at hlt
            omega
      · cases h; intro a b hab; simp at hab

/-- C2: after any sequence of day clicks processed by the Range-mode
branch of `handleDayClick`, starting from any value satisfying the
ordering invariant (in particular the empty range), whenever both ends
of the resulting range are set, `from` is on the same or an earlier day
than `to`: completing a range with an earlier candidate swaps the ends. -/
theorem rangeClicks_preserve_order (enableTime : Bool) (selH selM : Int)
    (minD maxD : Option DT) (dis : Option DisabledDates) (start : SelectedDateType)
    (clicks : List DT) (hstart : rangeInv start) :
    rangeInv (clicks.foldl
      (clickStep ChronoPickMode.range enableTime selH selM minD maxD dis) start) := by
  induction clicks generalizing start with
  | nil => exact hstart
  | cons c rest ih =>
    exact ih _ (clickStep_rangeInv enableTime selH selM minD maxD dis start c hstart)

theorem rangeClicks_preserve_order_witness :
    rangeInv ([(⟨20, 0, 0, 0, 0⟩ : DT), ⟨10, 0, 0, 0, 0⟩].foldl
      (clickStep ChronoPickMode.range false 12 0 none none none)
      (SelectedDateType.range none none)) :=
  rangeClicks_preserve_order false 12 0 none none none (SelectedDateType.range none none)
    [⟨20, 0, 0, 0, 0⟩, ⟨10, 0, 0, 0, 0⟩] (fun a b hab => by simp at hab)

/-- C5: in Single mode with time enabled, when the existing selected
value is a date, clicking an admissible day yields that day carrying the
existing value's hour and minute with seconds and milliseconds zeroed —
the global time-picker hour/minute (`selH`/`selM`) do not appear in the
result. -/
theorem singleClick_keeps_existing_time (v day : DT) (selH selM : Int)
    (minD maxD : Option DT) (dis : Option DisabledDates)
    (hadm : isDateDisabled day minD maxD dis = false) :
    handleDayClick ChronoPickMode.single (SelectedDateType.date v) true selH selM
      minD maxD dis day =
      some ⟨SelectedDateType.date ⟨day.day, v.hour, v.minute, 0, 0⟩, false, false,
            ⟨day.day, v.hour, v.minute, 0, 0⟩⟩ := by
  simp [handleDayClick, clickFinalDay, hadm, valueInstanceofDate, setTime]

theorem singleClick_keeps_existing_time_witness :
    handleDayClick ChronoPickMode.single (SelectedDateType.date ⟨19723, 8, 30, 0, 0⟩) true 14 0
      none none none ⟨19724, 0, 0, 0, 0⟩ =
      some ⟨SelectedDateType.date ⟨19724, 8, 30, 0, 0⟩, false, false, ⟨19724, 8, 30, 0, 0⟩⟩ :=
  singleClick_keeps_existing_time ⟨19723, 8, 30, 0, 0⟩ ⟨19724, 0, 0, 0, 0⟩ 14 0 none none none rfl

/-- C7: in every mode, for every selection value and constraint set, a
day click on an inadmissible day is a silent no-op: `handleDayClick`
returns without invoking `onChange`, `onVisibilityChange`,
`setTempRangeEnd` or `setFocusedDate` (modelled as `none`). -/
theorem disabledClick_silent_noop (mode : ChronoPickMode) (value : SelectedDateType)
    (enableTime : Bool) (selH selM : Int) (minD maxD : Option DT)
    (dis : Option DisabledDates) (day : DT)
    (hdis : isDateDisabled day minD maxD dis = true) :
    handleDayClick mode value enableTime selH selM minD maxD dis day = none := by
  simp [handleDayClick, hdis]

theorem disabledClick_silent_noop_witness :
    handleDayClick ChronoPickMode.single SelectedDateType.null false 12 0
      (some ⟨5, 0, 0, 0, 0⟩) none none ⟨0, 0, 0, 0, 0⟩ = none :=
  disabledClick_silent_noop ChronoPickMode.single SelectedDateType.null false 12 0
    (some ⟨5, 0, 0, 0, 0⟩) none none ⟨0, 0, 0, 0, 0⟩ rfl

/-- C10: in Multiple mode, `handleTimeChange` never invokes `onChange`
and never requests a focus move, for every selection value and
constraint set; the only state it updates is the internal
`selectedHour`/`selectedMinute` pair. -/
theorem multipleTimeChange_frame (value : SelectedDateType) (hourArg minuteArg : Option Int)
    (selH selM : Int) (minD maxD : Option DT) (dis : Option DisabledDates) :
    handleTimeChange ChronoPickMode.multiple value hourArg minuteArg selH selM minD maxD dis =
      ⟨hourArg.getD selH, minuteArg.getD selM, none, none⟩ := by
  cases value with
  | null => rfl
  | date d => rfl
  | dates l => rfl
  | range f t => cases f <;> cases t <;> rfl

theorem clickStep_multiple_eq (l : List DT) (day : DT) (selH selM : Int)
    (minD maxD : Option DT) (dis : Option DisabledDates)
    (hadm : isDateDisabled day minD maxD dis = false) :
    clickStep ChronoPickMode.multiple false selH selM minD maxD dis
      (SelectedDateType.dates l) day = SelectedDateType.dates (multiToggle l day) := by
  simp [clickStep, handleDayClick, clickFinalDay, hadm, valueAsArray, multiToggle]
  by_cases hmem : ∃ x ∈ l, isSameDay x day = true
  · simp [hmem]
  · simp [hmem]

theorem hasDay_multiToggle_twice (l : List DT) (day : DT) (x : Int) :
    hasDay (multiToggle (multiToggle l day) day) x = hasDay l x := by
  by_cases h1 : l.any (fun d => isSameDay d day) = true
  · have hno : (l.filter (fun d => !(isSameDay d day))).any (fun d => isSameDay d day) = false := by
      rw [List.any_eq_false]
      intro d hd
      rw [List.mem_filter] at hd
      simpa using hd.2
    simp only [multiToggle, h1, if_true, hno, Bool.false_eq_true, if_false]
    cases hx : hasDay l x
    · rw [hasDay, List.any_eq_false]
      rw [hasDay, List.any_eq_false] at hx
      intro d hd
      rw [List.mem_append] at hd
      rcases hd with hd | hd
      · exact hx d (List.mem_filter.mp hd).1
      · simp only [List.mem_singleton] at hd
        subst hd
        rw [List.any_eq_true] at h1
        obtain ⟨e, he, hesame⟩ := h1
        have hex := hx e he
        simp only [isSameDay, beq_iff_eq] at hesame
        simp only [beq_eq_false_iff_ne, ne_eq] at hex
        simp only [beq_eq_false_iff_ne, ne_eq]
        simp at hex ⊢
        omega
    · rw [hasDay, List.any_eq_true] at hx
      obtain ⟨e, he, hex⟩ := hx
      rw [hasDay, List.any_eq_true]
      simp only [beq_iff_eq] at hex
      by_cases hxd : x = day.day
      · refine ⟨day, ?_, ?_⟩
        · rw [List.mem_append]; right; exact List.mem_singleton.mpr rfl
        · simp [hxd]
      · refine ⟨e, ?_, by simp [hex]⟩
        rw [List.mem_append]
        left
        rw [List.mem_filter]
        refine ⟨he, ?_⟩
        simp only [isSameDay, Bool.not_eq_eq_eq_not, Bool.not_true, beq_eq_false_iff_ne, ne_eq]
        omega
  · have h1' : l.any (fun d => isSameDay d day) = false := by
      revert h1; cases l.any (fun d => isSameDay d day) <;> simp
    have happ : ((l ++ [day]).any (fun d => isSameDay d day)) = true := by
      rw [List.any_append]
      simp [isSameDay]
    simp only [multiToggle, h1', Bool.false_eq_true, if_false, happ, if_true]
    have hfl : l.filter (fun d => !(isSameDay d day)) = l := by
      rw [List.filter_eq_self]
      intro a ha
      rw [List.any_eq_false] at h1'
      simpa using h1' a ha
    rw [List.filter_append, hfl]
    simp [isSameDay]

theorem multipleToggle_counterexample :
    isDateDisabled ⟨0, 0, 0, 0, 0⟩ none none none = false ∧
    clickStep ChronoPickMode.multiple false 12 0 none none none
      (clickStep ChronoPickMode.multiple false 12 0 none none none
        (SelectedDateType.dates [⟨0, 9, 0, 0, 0⟩]) ⟨0, 0, 0, 0, 0⟩) ⟨0, 0, 0, 0, 0⟩ ≠
      SelectedDateType.dates [⟨0, 9, 0, 0, 0⟩] := by
  decide

/-- C6 (amended): in Multiple mode with time disabled, clicking the same
admissible day twice restores the selection's set of days: the first
click toggles the day's membership (removing every same-day entry if one
exists, else appending the day) and the second click toggles it back, so
every day is selected after the two clicks iff it was selected before —
though the stored entries for the clicked day (their time-of-day,
multiplicity and position) need not be the prior ones. -/
theorem multipleToggle_restores_days (l : List DT) (day : DT) (selH selM : Int)
    (minD maxD : Option DT) (dis : Option DisabledDates)
    (hadm : isDateDisabled day minD maxD dis = false) (x : Int) :
    hasDay (valueAsArray
      (clickStep ChronoPickMode.multiple false selH selM minD maxD dis
        (clickStep ChronoPickMode.multiple false selH selM minD maxD dis
          (SelectedDateType.dates l) day) day)) x = hasDay l x := by
  rw [clickStep_multiple_eq l day selH selM minD maxD dis hadm,
      clickStep_multiple_eq (multiToggle l day) day selH selM minD maxD dis hadm]
  show hasDay (multiToggle (multiToggle l day) day) x = hasDay l x
  exact hasDay_multiToggle_twice l day x

theorem multipleToggle_restores_days_witness :
    hasDay (valueAsArray
      (clickStep ChronoPickMode.multiple false 12 0 none none none
        (clickStep ChronoPickMode.multiple false 12 0 none none none
          (SelectedDateType.dates [⟨0, 0, 0, 0, 0⟩, ⟨1, 0, 0, 0, 0⟩]) ⟨0, 0, 0, 0, 0⟩)
        ⟨0, 0, 0, 0, 0⟩)) 0 =
      hasDay [⟨0, 0, 0, 0, 0⟩, ⟨1, 0, 0, 0, 0⟩] 0 :=
  multipleToggle_restores_days [⟨0, 0, 0, 0, 0⟩, ⟨1, 0, 0, 0, 0⟩] ⟨0, 0, 0, 0, 0⟩ 12 0
    none none none rfl 0

theorem focusedDate_inadmissible_counterexample :
    isDateDisabled
      (setFocusedDateM ⟨0, 0, 0, 0, 0⟩ none none
        (some (DisabledDates.pred (fun _ => true))) 0).focusedDate
      none none (some (DisabledDates.pred (fun _ => true))) = true := by
  rfl

/-- C3 (amended): the focused date produced by `setFocusedDate` (the
clamp every focus-changing operation funnels through) is admissible or
one of the documented fallback values of the direction-0 search
(`minDate`, `maxDate`, or the requested date itself — the escape hatch,
which can be inadmissible when the search exhausts); in particular it is
admissible, and equal to the midnight of the requested date, whenever
that date is itself admissible. -/
theorem setFocusedDate_admissible_or_fallback (d : DT) (minD maxD : Option DT)
    (dis : Option DisabledDates) (anchorIndex : Int) :
    (isDateDisabled (setFocusedDateM d minD maxD dis anchorIndex).focusedDate minD maxD dis = false ∨
     minD = some (setFocusedDateM d minD maxD dis anchorIndex).focusedDate ∨
     maxD = some (setFocusedDateM d minD maxD dis anchorIndex).focusedDate ∨
     (setFocusedDateM d minD maxD dis anchorIndex).focusedDate = d) ∧
    (isDateDisabled (midnightOf d) minD maxD dis = false →
     (setFocusedDateM d minD maxD dis anchorIndex).focusedDate = midnightOf d) := by
  have hf : (setFocusedDateM d minD maxD dis anchorIndex).focusedDate =
      getFirstFocusableDate d minD maxD dis 0 := by
    simp only [setFocusedDateM]
    split <;> rfl
  constructor
  · rw [hf]
    exact gffd_characterization d minD maxD dis 0
  · intro hadm
    rw [hf]
    unfold getFirstFocusableDate
    simp [hadm]

theorem setFocusedDate_admissible_or_fallback_witness :
    (isDateDisabled (setFocusedDateM ⟨3, 15, 0, 0, 0⟩ none none none 0).focusedDate
        none none none = false ∨
     (none : Option DT) = some (setFocusedDateM ⟨3, 15, 0, 0, 0⟩ none none none 0).focusedDate ∨
     (none : Option DT) = some (setFocusedDateM ⟨3, 15, 0, 0, 0⟩ none none none 0).focusedDate ∨
     (setFocusedDateM ⟨3, 15, 0, 0, 0⟩ none none none 0).focusedDate = ⟨3, 15, 0, 0, 0⟩) ∧
    (setFocusedDateM ⟨3, 15, 0, 0, 0⟩ none none none 0).focusedDate = midnightOf ⟨3, 15, 0, 0, 0⟩ :=
  ⟨(setFocusedDate_admissible_or_fallback ⟨3, 15, 0, 0, 0⟩ none none none 0).1,
   (setFocusedDate_admissible_or_fallback ⟨3, 15, 0, 0, 0⟩ none none none 0).2 rfl⟩

theorem daysInMonthC_ge (y m : Int) : 28 ≤ daysInMonthC y m := by
  unfold daysInMonthC
  split
  · split <;> omega
  · split <;> omega

/-- C9: for every valid civil date and every integer n, `addMonths`
shifts the month by n (with floored year carry) and clamps the
day-of-month to the target month's length exactly when it would
overflow, i.e. the result day is `min d (daysInMonth target)`; in
particular `addMonths(Jan 31, 1)` is the last day of February of that
year (29 in a leap year, else 28).  The embedding is purely functional,
so the input date is not mutated by construction. -/
theorem addMonths_shifts_and_clamps (y m0 d n : Int) (hv : validCivil y m0 d) :
    (addMonthsCiv y m0 d n =
      (y + (m0 + n) / 12, (m0 + n) % 12,
        min d (daysInMonthC (y + (m0 + n) / 12) ((m0 + n) % 12)))) ∧
    addMonthsCiv y 0 31 1 = (y, 1, if isLeap y then 29 else 28) := by
  obtain ⟨hm0, hm1, hd1, hd2⟩ := hv
  constructor
  · have hMr0 : 0 ≤ (m0 + n) % 12 := Int.emod_nonneg _ (by norm_num)
    have hMr1 : (m0 + n) % 12 < 12 := Int.emod_lt_of_pos _ (by norm_num)
    have h28 := daysInMonthC_ge (y + (m0 + n) / 12) ((m0 + n) % 12)
    by_cases hle : d ≤ daysInMonthC (y + (m0 + n) / 12) ((m0 + n) % 12)
    · have ht : addMonthsSetMonth y m0 d n =
          (y + (m0 + n) / 12, (m0 + n) % 12, d) := by
        unfold addMonthsSetMonth
        rw [if_pos hle]
      simp only [addMonthsCiv, ht]
      simp [min_eq_left hle]
    · push_neg at hle
      by_cases h11 : (m0 + n) % 12 = 11
      · have ht : addMonthsSetMonth y m0 d n =
            (y + (m0 + n) / 12 + 1, (0 : Int),
             d - daysInMonthC (y + (m0 + n) / 12) ((m0 + n) % 12)) := by
          unfold addMonthsSetMonth
          rw [if_neg (by omega), if_pos (by simp [h11])]
        simp only [addMonthsCiv, ht]
        have hne : (d - daysInMonthC (y + (m0 + n) / 12) ((m0 + n) % 12) != d) = true := by
          simp
          omega
        rw [if_pos hne]
        unfold setDateZero
        rw [if_pos (by simp)]
        rw [min_eq_right (by omega)]
        rw [h11]
        norm_num
      · have ht : addMonthsSetMonth y m0 d n =
            (y + (m0 + n) / 12, (m0 + n) % 12 + 1,
             d - daysInMonthC (y + (m0 + n) / 12) ((m0 + n) % 12)) := by
          unfold addMonthsSetMonth
          rw [if_neg (by omega), if_neg (by simp [h11])]
        simp only [addMonthsCiv, ht]
        have hne : (d - daysInMonthC (y + (m0 + n) / 12) ((m0 + n) % 12) != d) = true := by
          simp
          omega
        rw [if_pos hne]
        unfold setDateZero
        rw [if_neg (by simp; omega)]
        rw [min_eq_right (by omega)]
        norm_num
  · by_cases hl : isLeap y
    · have h1 : daysInMonthC y 1 = 29 := by
        unfold daysInMonthC
        simp [hl]
      have hq : (1 : Int) / 12 = 0 := by decide
      have hr : (1 : Int) % 12 = 1 := by decide
      have ht : addMonthsSetMonth y 0 31 1 = (y, 2, 2) := by
        unfold addMonthsSetMonth
        rw [show (0 : Int) + 1 = 1 by norm_num, hq, hr]
        rw [show y + 0 = y by ring]
        rw [h1]
        norm_num
      simp only [addMonthsCiv, ht]
      norm_num [setDateZero, h1, hl]
    · have h1 : daysInMonthC y 1 = 28 := by
        unfold daysInMonthC
        simp [hl]
      have hq : (1 : Int) / 12 = 0 := by decide
      have hr : (1 : Int) % 12 = 1 := by decide
      have ht : addMonthsSetMonth y 0 31 1 = (y, 2, 3) := by
        unfold addMonthsSetMonth
        rw [show (0 : Int) + 1 = 1 by norm_num, hq, hr]
        rw [show y + 0 = y by ring]
        rw [h1]
        norm_num
      simp only [addMonthsCiv, ht]
      norm_num [setDateZero, h1, hl]

theorem addMonths_shifts_and_clamps_witness :
    (addMonthsCiv 2024 0 31 1 =
      (2024 + (0 + 1) / 12, (0 + 1) % 12,
        min 31 (daysInMonthC (2024 + (0 + 1) / 12) ((0 + 1) % 12)))) ∧
    addMonthsCiv 2024 0 31 1 = (2024, 1, if isLeap 2024 then 29 else 28) :=
  addMonths_shifts_and_clamps 2024 0 31 1 (by decide)

theorem monthSelect_counterexample :
    (handleMonthSelect ⟨daysFromCivil 2024 5 15, 0, 0, 0, 0⟩ none
        (some ⟨daysFromCivil 2023 11 31, 0, 0, 0, 0⟩) none 0).anchorIndex ≠
      jsDateIndex 2024 0 1 ∧
    isBeforeDay
      (handleMonthSelect ⟨daysFromCivil 2024 5 15, 0, 0, 0, 0⟩ none
        (some ⟨daysFromCivil 2023 11 31, 0, 0, 0, 0⟩) none 0).focusTarget
      ⟨jsDateIndex 2024 0 1, 0, 0, 0, 0⟩ = true := by
  decide

/-- C8 (amended): selecting a month cell in the Months view switches the
view back to Days, sets focus to the direction-0 clamp of day 1 of
(focused year, picked month) — which is exactly that day 1 whenever it
is admissible, and the first admissible date after it when the forward
search succeeds, but can be an earlier or fallback date otherwise — and
sets the anchor to day 1 of the clamped focus target's own year and
month (not necessarily the picked month). -/
theorem monthSelect_clamps_and_returns_days (f : DT) (minD maxD : Option DT)
    (dis : Option DisabledDates) (monthIndex : Int) :
    (handleMonthSelect f minD maxD dis monthIndex).view = CalendarView.days ∧
    (handleMonthSelect f minD maxD dis monthIndex).focusTarget =
      getFirstFocusableDate ⟨jsDateIndex (getYearOf f.day) monthIndex 1, 0, 0, 0, 0⟩
        minD maxD dis 0 ∧
    (handleMonthSelect f minD maxD dis monthIndex).anchorIndex =
      jsDateIndex (getYearOf (handleMonthSelect f minD maxD dis monthIndex).focusTarget.day)
        (getMonthOf (handleMonthSelect f minD maxD dis monthIndex).focusTarget.day) 1 ∧
    (isDateDisabled ⟨jsDateIndex (getYearOf f.day) monthIndex 1, 0, 0, 0, 0⟩ minD maxD dis =
        false →
      (handleMonthSelect f minD maxD dis monthIndex).focusTarget =
        ⟨jsDateIndex (getYearOf f.day) monthIndex 1, 0, 0, 0, 0⟩) := by
  refine ⟨rfl, rfl, rfl, ?_⟩
  intro hadm
  show getFirstFocusableDate ⟨jsDateIndex (getYearOf f.day) monthIndex 1, 0, 0, 0, 0⟩
      minD maxD dis 0 = ⟨jsDateIndex (getYearOf f.day) monthIndex 1, 0, 0, 0, 0⟩
  unfold getFirstFocusableDate
  simp [hadm, midnightOf]

theorem monthSelect_clamps_and_returns_days_witness :
    (handleMonthSelect ⟨daysFromCivil 2024 5 15, 0, 0, 0, 0⟩ none none none 0).view =
      CalendarView.days ∧
    (handleMonthSelect ⟨daysFromCivil 2024 5 15, 0, 0, 0, 0⟩ none none none 0).focusTarget =
      getFirstFocusableDate
        ⟨jsDateIndex (getYearOf (DT.mk (daysFromCivil 2024 5 15) 0 0 0 0).day) 0 1, 0, 0, 0, 0⟩
        none none none 0 ∧
    (handleMonthSelect ⟨daysFromCivil 2024 5 15, 0, 0, 0, 0⟩ none none none 0).anchorIndex =
      jsDateIndex
        (getYearOf
          (handleMonthSelect ⟨daysFromCivil 2024 5 15, 0, 0, 0, 0⟩ none none none
              0).focusTarget.day)
        (getMonthOf
          (handleMonthSelect ⟨daysFromCivil 2024 5 15, 0, 0, 0, 0⟩ none none none
              0).focusTarget.day) 1 ∧
    (handleMonthSelect ⟨daysFromCivil 2024 5 15, 0, 0, 0, 0⟩ none none none 0).focusTarget =
      ⟨jsDateIndex (getYearOf (DT.mk (daysFromCivil 2024 5 15) 0 0 0 0).day) 0 1, 0, 0, 0, 0⟩ :=
  ⟨(monthSelect_clamps_and_returns_days ⟨daysFromCivil 2024 5 15, 0, 0, 0, 0⟩
      none none none 0).1,
   (monthSelect_clamps_and_returns_days ⟨daysFromCivil 2024 5 15, 0, 0, 0, 0⟩
      none none none 0).2.1,
   (monthSelect_clamps_and_returns_days ⟨daysFromCivil 2024 5 15, 0, 0, 0, 0⟩
      none none none 0).2.2.1,
   (monthSelect_clamps_and_returns_days ⟨daysFromCivil 2024 5 15, 0, 0, 0, 0⟩
      none none none 0).2.2.2 rfl⟩

theorem formatParse_counterexample :
    containsTok ("Month YYYY-MM-DD".toList) yyyyTok = true ∧
    containsTok ("Month YYYY-MM-DD".toList) mmTok = true ∧
    containsTok ("Month YYYY-MM-DD".toList) ddTok = true ∧
    parseDate (formatDate ⟨2024, 0, 15, 0, 0, 0⟩ ("Month YYYY-MM-DD".toList) false)
      ("Month YYYY-MM-DD".toList) false ⟨2024, 0, 15, 0, 0, 0⟩ = none := by
  decide

theorem digitChar_isDigit (n : Nat) : isDigitC (digitChar n) = true := by
  unfold digitChar
  split <;> rfl

theorem digitToNat_digitChar {n : Nat} (h : n < 10) : digitToNat (digitChar n) = n := by
  interval_cases n <;> rfl

theorem natDigitsAux_digits {f n : Nat} : ∀ c ∈ natDigitsAux f n, isDigitC c = true := by
  induction f generalizing n with
  | zero => intro c hc; simp [natDigitsAux] at hc
  | succ f ih =>
    intro c hc
    rw [natDigitsAux] at hc
    split at hc
    · simp only [List.mem_singleton] at hc
      subst hc
      exact digitChar_isDigit n
    · rw [List.mem_append] at hc
      rcases hc with hc | hc
      · exact ih c hc
      · simp only [List.mem_singleton] at hc
        subst hc
        exact digitChar_isDigit (n % 10)

theorem natDigits_digits {n : Nat} : ∀ c ∈ natDigits n, isDigitC c = true :=
  natDigitsAux_digits

theorem digitsToNat_append_one (ds : List Char) (c : Char) :
    digitsToNat (ds ++ [c]) = digitsToNat ds * 10 + digitToNat c := by
  unfold digitsToNat
  rw [List.foldl_append]
  rfl

theorem digitsToNat_natDigitsAux {f n : Nat} (h : n < f) :
    digitsToNat (natDigitsAux f n) = n := by
  induction f generalizing n with
  | zero => omega
  | succ f ih =>
    rw [natDigitsAux]
    by_cases h10 : n < 10
    · rw [if_pos h10]
      show 0 * 10 + digitToNat (digitChar n) = n
      rw [digitToNat_digitChar h10]
      omega
    · rw [if_neg h10]
      rw [digitsToNat_append_one]
      have hdiv : n / 10 < f := by omega
      rw [ih hdiv, digitToNat_digitChar (by omega)]
      omega

theorem digitsToNat_natDigits (n : Nat) : digitsToNat (natDigits n) = n :=
  digitsToNat_natDigitsAux (Nat.lt_succ_self n)

theorem natDigitsAux_stable {f1 f2 n : Nat} (h1 : n < f1) (h2 : n < f2) :
    natDigitsAux f1 n = natDigitsAux f2 n := by
  induction f1 generalizing n f2 with
  | zero => omega
  | succ f1 ih =>
    obtain ⟨g2, rfl⟩ : ∃ g2, f2 = g2 + 1 := ⟨f2 - 1, by omega⟩
    rw [natDigitsAux, natDigitsAux]
    by_cases h10 : n < 10
    · rw [if_pos h10, if_pos h10]
    · rw [if_neg h10, if_neg h10]
      rw [@ih g2 (n / 10) (by omega) (by omega)]

theorem natDigits_lt10 {n : Nat} (h : n < 10) : natDigits n = [digitChar n] := by
  unfold natDigits
  rw [show n + 1 = Nat.succ n from rfl, natDigitsAux, if_pos h]

theorem natDigits_ge10 {n : Nat} (h : 10 ≤ n) :
    natDigits n = natDigits (n / 10) ++ [digitChar (n % 10)] := by
  unfold natDigits
  rw [show n + 1 = Nat.succ n from rfl, natDigitsAux, if_neg (by omega)]
  congr 1
  exact natDigitsAux_stable (by omega) (Nat.lt_succ_self _)

theorem natDigits_length4 {n : Nat} (h1 : 1000 ≤ n) (h2 : n ≤ 9999) :
    (natDigits n).length = 4 := by
  rw [natDigits_ge10 (by omega), natDigits_ge10 (by omega), natDigits_ge10 (by omega),
      natDigits_lt10 (by omega)]
  simp

theorem natDigits_length2 {n : Nat} (h1 : 10 ≤ n) (h2 : n ≤ 99) :
    (natDigits n).length = 2 := by
  rw [natDigits_ge10 (by omega), natDigits_lt10 (by omega)]
  simp

theorem natDigits_length1 {n : Nat} (h : n < 10) : (natDigits n).length = 1 := by
  rw [natDigits_lt10 h]
  rfl

theorem digit_not_ws {c : Char} (h : isDigitC c = true) : isWhitespaceC c = false := by
  have h1 : c ≠ ' ' := by rintro rfl; exact absurd h (by decide)
  have h2 : c ≠ '\t' := by rintro rfl; exact absurd h (by decide)
  have h3 : c ≠ '\n' := by rintro rfl; exact absurd h (by decide)
  have h4 : c ≠ '\r' := by rintro rfl; exact absurd h (by decide)
  simp [isWhitespaceC, h1, h2, h3, h4]

theorem digit_ne_minus {c : Char} (h : isDigitC c = true) : c ≠ '-' := by
  rintro rfl; exact absurd h (by decide)

theorem digit_ne_plus {c : Char} (h : isDigitC c = true) : c ≠ '+' := by
  rintro rfl; exact absurd h (by decide)

theorem takeWhile_all {p : Char → Bool} {l : List Char} (h : ∀ c ∈ l, p c = true) :
    l.takeWhile p = l := by
  induction l with
  | nil => rfl
  | cons a l ih =>
    rw [List.takeWhile_cons, if_pos (h a (List.mem_cons_self a l))]
    rw [ih (fun c hc => h c (List.mem_cons_of_mem a hc))]

theorem parseIntJS_digits {ds : List Char} (hne : ds ≠ [])
    (hd : ∀ c ∈ ds, isDigitC c = true) :
    parseIntJS ds = some ((digitsToNat ds : Int)) := by
  obtain ⟨c, r, rfl⟩ : ∃ c r, ds = c :: r := by
    cases ds with
    | nil => exact absurd rfl hne
    | cons c r => exact ⟨c, r, rfl⟩
  have hc := hd c (List.mem_cons_self c r)
  unfold parseIntJS
  rw [List.dropWhile_cons, if_neg (by rw [digit_not_ws hc]; exact Bool.false_ne_true)]
  have hm : (c == '-') = false := by simp [digit_ne_minus hc]
  have hp : (c == '+') = false := by simp [digit_ne_plus hc]
  simp only [hm, hp, Bool.false_eq_true, if_false]
  unfold parseNatDigits
  rw [takeWhile_all hd]
  simp

theorem digitsToNat_replicate_zero (k : Nat) (ds : List Char) :
    digitsToNat (List.replicate k '0' ++ ds) = digitsToNat ds := by
  unfold digitsToNat
  rw [List.foldl_append]
  have : List.foldl (fun a c => a * 10 + digitToNat c) 0 (List.replicate k '0') = 0 := by
    induction k with
    | zero => rfl
    | succ k ih => rw [List.replicate_succ, List.foldl_cons]; exact ih
  rw [this]

theorem padStart2_digits {ds : List Char} (hd : ∀ c ∈ ds, isDigitC c = true) :
    ∀ c ∈ padStart2 ds, isDigitC c = true := by
  intro c hc
  rw [padStart2, List.mem_append] at hc
  rcases hc with hc | hc
  · rw [List.eq_of_mem_replicate hc]
    rfl
  · exact hd c hc

theorem digitsToNat_padStart2 (ds : List Char) :
    digitsToNat (padStart2 ds) = digitsToNat ds :=
  digitsToNat_replicate_zero _ ds

theorem natDigits_ne_nil (n : Nat) : natDigits n ≠ [] := by
  by_cases h : n < 10
  · rw [natDigits_lt10 h]
    simp
  · rw [natDigits_ge10 (by omega)]
    simp

theorem padStart2_ne_nil {ds : List Char} (h : ds ≠ []) : padStart2 ds ≠ [] := by
  rw [padStart2]
  intro he
  rw [List.append_eq_nil] at he
  exact h he.2

theorem parseIntJS_intRepr {y : Int} (h : 0 ≤ y) :
    parseIntJS (intRepr y) = some y := by
  rw [intRepr, if_neg (by omega)]
  rw [parseIntJS_digits (natDigits_ne_nil _) natDigits_digits]
  rw [digitsToNat_natDigits, Int.toNat_of_nonneg h]

theorem parseIntJS_padStart2_intRepr {y : Int} (h : 0 ≤ y) :
    parseIntJS (padStart2 (intRepr y)) = some y := by
  rw [intRepr, if_neg (by omega)]
  rw [parseIntJS_digits (padStart2_ne_nil (natDigits_ne_nil _))
      (padStart2_digits natDigits_digits)]
  rw [digitsToNat_padStart2, digitsToNat_natDigits, Int.toNat_of_nonneg h]

theorem intRepr_digits {y : Int} (h : 0 ≤ y) : ∀ c ∈ intRepr y, isDigitC c = true := by
  rw [intRepr, if_neg (by omega)]
  exact natDigits_digits

theorem intRepr_length4 {y : Int} (h1 : 1000 ≤ y) (h2 : y ≤ 9999) :
    (intRepr y).length = 4 := by
  rw [intRepr, if_neg (by omega)]
  exact natDigits_length4 (by omega) (by omega)

theorem padStart2_length {ds : List Char} (h1 : 1 ≤ ds.length) (h2 : ds.length ≤ 2) :
    (padStart2 ds).length = 2 := by
  rw [padStart2]
  simp
  omega

theorem padStart2_intRepr_length {y : Int} (h1 : 0 ≤ y) (h2 : y ≤ 99) :
    (padStart2 (intRepr y)).length = 2 := by
  rw [intRepr, if_neg (by omega)]
  apply padStart2_length
  · by_cases h : y.toNat < 10
    · rw [natDigits_length1 h]
    · rw [natDigits_length2 (by omega) (by omega)]
      omega
  · by_cases h : y.toNat < 10
    · rw [natDigits_length1 h]
      omega
    · rw [natDigits_length2 (by omega) (by omega)]

theorem idxOf_some_occurs {s t : List Char} : ∀ {i : Nat}, idxOf s t = some i → occursAt s t i := by
  induction s with
  | nil =>
    intro i h
    rw [idxOf] at h
    split at h
    · cases h
      rename_i he
      rw [occursAt, List.isEmpty_iff.mp he]
      rfl
    · cases h
  | cons c r ih =>
    intro i h
    rw [idxOf] at h
    split at h
    · cases h
      rename_i he
      exact he
    · obtain ⟨j, hj, rfl⟩ := Option.map_eq_some'.mp h
      exact ih hj

theorem idxOf_some_le {s t : List Char} : ∀ {i : Nat}, idxOf s t = some i →
    ∀ j, occursAt s t j → i ≤ j := by
  induction s with
  | nil =>
    intro i h j _
    rw [idxOf] at h
    split at h
    · cases h; omega
    · cases h
  | cons c r ih =>
    intro i h j hocc
    rw [idxOf] at h
    split at h
    · cases h; omega
    · rename_i hne
      obtain ⟨i', hi', rfl⟩ := Option.map_eq_some'.mp h
      cases j with
      | zero => exact absurd hocc hne
      | succ j => exact Nat.succ_le_succ (ih hi' j hocc)

theorem idxOf_none_not_occurs {s t : List Char} : idxOf s t = none →
    ∀ j, ¬ occursAt s t j := by
  induction s with
  | nil =>
    intro h j hocc
    rw [idxOf] at h
    split at h
    · cases h
    · rename_i hne
      apply hne
      rw [occursAt] at hocc
      simp only [List.drop_nil, List.take_nil] at hocc
      rw [← hocc]
      rfl
  | cons c r ih =>
    intro h j hocc
    rw [idxOf] at h
    split at h
    · cases h
    · rename_i hne
      rw [Option.map_eq_none'] at h
      cases j with
      | zero => exact hne hocc
      | succ j => exact ih h j hocc

theorem idxOf_congr {s1 s2 t : List Char}
    (h : ∀ j, occursAt s1 t j ↔ occursAt s2 t j) : idxOf s1 t = idxOf s2 t := by
  cases h1 : idxOf s1 t with
  | none =>
    cases h2 : idxOf s2 t with
    | none => rfl
    | some i => exact absurd ((h i).mpr (idxOf_some_occurs h2)) (idxOf_none_not_occurs h1 i)
  | some i =>
    cases h2 : idxOf s2 t with
    | none => exact absurd ((h i).mp (idxOf_some_occurs h1)) (idxOf_none_not_occurs h2 i)
    | some i' =>
      have a1 := idxOf_some_le h1 i' ((h i').mpr (idxOf_some_occurs h2))
      have a2 := idxOf_some_le h2 i ((h i).mp (idxOf_some_occurs h1))
      exact congrArg some (Nat.le_antisymm a1 a2)

theorem containsTok_false_iff {s t : List Char} :
    containsTok s t = false ↔ ∀ j, ¬ occursAt s t j := by
  rw [containsTok]
  constructor
  · intro h
    cases hi : idxOf s t with
    | none => exact idxOf_none_not_occurs hi
    | some i => rw [hi] at h; cases h
  · intro h
    cases hi : idxOf s t with
    | none => rfl
    | some i => exact absurd (idxOf_some_occurs hi) (h i)

theorem occursAt_iff_getElem {s t : List Char} (ht : t ≠ []) (j : Nat) :
    occursAt s t j ↔
      (j + t.length ≤ s.length ∧ ∀ k, k < t.length → s[j + k]? = t[k]?) := by
  constructor
  · intro hocc
    have hlen : t.length ≤ (s.drop j).length := by
      conv_lhs => rw [← hocc]
      rw [List.length_take]
      exact Nat.min_le_right _ _
    have hj : j ≤ s.length := by
      by_contra hj
      apply ht
      rw [← hocc, List.drop_eq_nil_of_le (by omega)]
      simp
    refine ⟨by rw [List.length_drop] at hlen; omega, fun k hk => ?_⟩
    have hk2 : t[k]? = ((s.drop j).take t.length)[k]? := by rw [hocc]
    rw [hk2, List.getElem?_take, if_pos hk, List.getElem?_drop]
  · rintro ⟨hle, hget⟩
    apply List.ext_getElem?
    intro m
    by_cases hm : m < t.length
    · rw [List.getElem?_take, if_pos hm, List.getElem?_drop]
      exact hget m hm
    · rw [List.getElem?_take, if_neg hm, eq_comm]
      exact List.getElem?_eq_none (by omega)

theorem splice_length {s r : List Char} {i n : Nat} (hin : i + n ≤ s.length)
    (hr : r.length = n) :
    (s.take i ++ r ++ s.drop (i + n)).length = s.length := by
  rw [List.length_append, List.length_append, List.length_take, List.length_drop,
      Nat.min_eq_left (by omega), hr]
  omega

theorem splice_getElem_lt {s r : List Char} {i n k : Nat} (hin : i + n ≤ s.length)
    (hk : k < i) : (s.take i ++ r ++ s.drop (i + n))[k]? = s[k]? := by
  rw [List.append_assoc, List.getElem?_append,
      if_pos (by rw [List.length_take, Nat.min_eq_left (by omega)]; omega),
      List.getElem?_take, if_pos hk]

theorem splice_getElem_mid {s r : List Char} {i n k : Nat} (hin : i + n ≤ s.length)
    (hr : r.length = n) (h1 : i ≤ k) (h2 : k < i + n) :
    (s.take i ++ r ++ s.drop (i + n))[k]? = r[k - i]? := by
  rw [List.append_assoc, List.getElem?_append,
      if_neg (by rw [List.length_take, Nat.min_eq_left (by omega)]; omega),
      List.length_take, Nat.min_eq_left (by omega), List.getElem?_append,
      if_pos (by rw [hr]; omega)]

theorem splice_getElem_ge {s r : List Char} {i n k : Nat} (hin : i + n ≤ s.length)
    (hr : r.length = n) (h : i + n ≤ k) :
    (s.take i ++ r ++ s.drop (i + n))[k]? = s[k]? := by
  rw [List.append_assoc, List.getElem?_append,
      if_neg (by rw [List.length_take, Nat.min_eq_left (by omega)]; omega),
      List.length_take, Nat.min_eq_left (by omega), List.getElem?_append,
      if_neg (by rw [hr]; omega),
      hr, List.getElem?_drop]
  congr 1
  omega

theorem occursAt_splice_iff {s t r tok : List Char} {i : Nat}
    (hocc : occursAt s t i) (ht : t ≠ []) (htok : tok ≠ [])
    (hr : r.length = t.length)
    (hrdis : ∀ c ∈ r, c ∉ tok)
    (htdis : ∀ c ∈ t, c ∉ tok) :
    ∀ j, occursAt (s.take i ++ r ++ s.drop (i + t.length)) tok j ↔ occursAt s tok j := by
  intro j
  have hchr := (occursAt_iff_getElem ht i).mp hocc
  have hin : i + t.length ≤ s.length := hchr.1
  have hchar := hchr.2
  have hlen := splice_length hin hr
  rw [occursAt_iff_getElem htok j, occursAt_iff_getElem htok j, hlen]
  by_cases hover : ∃ k, k < tok.length ∧ i ≤ j + k ∧ j + k < i + t.length
  · obtain ⟨k0, hk0, hz1, hz2⟩ := hover
    have htokk : tok[k0]? = some tok[k0] := List.getElem?_eq_getElem hk0
    have htokmem : tok[k0] ∈ tok := List.getElem?_mem htokk
    constructor
    · rintro ⟨hl, hg⟩
      exfalso
      have h1 := hg k0 hk0
      rw [splice_getElem_mid hin hr hz1 hz2, htokk] at h1
      exact hrdis tok[k0] (List.getElem?_mem h1) htokmem
    · rintro ⟨hl, hg⟩
      exfalso
      have h1 := hg k0 hk0
      have hm : j + k0 - i < t.length := by omega
      have hz : s[j + k0]? = t[j + k0 - i]? := by
        have he : i + (j + k0 - i) = j + k0 := by omega
        have hx := hchar (j + k0 - i) hm
        rwa [he] at hx
      rw [hz, htokk] at h1
      exact htdis tok[k0] (List.getElem?_mem h1) htokmem
  · push_neg at hover
    have hsame : ∀ k, k < tok.length →
        (s.take i ++ r ++ s.drop (i + t.length))[j + k]? = s[j + k]? := by
      intro k hk
      rcases Nat.lt_or_ge (j + k) i with hlt | hge
      · exact splice_getElem_lt hin hlt
      · have hge2 : i + t.length ≤ j + k := hover k hk hge
        exact splice_getElem_ge hin hr hge2
    constructor
    · rintro ⟨hl, hg⟩
      exact ⟨hl, fun k hk => by rw [← hsame k hk]; exact hg k hk⟩
    · rintro ⟨hl, hg⟩
      exact ⟨hl, fun k hk => by rw [hsame k hk]; exact hg k hk⟩

theorem not_occurs_splice {s t r tok : List Char} {i : Nat}
    (hocc : occursAt s t i) (ht : t ≠ []) (htok : tok ≠ [])
    (hr : r.length = t.length)
    (hrdis : ∀ c ∈ r, c ∉ tok)
    (habs : ∀ j, ¬ occursAt s tok j) :
    ∀ j, ¬ occursAt (s.take i ++ r ++ s.drop (i + t.length)) tok j := by
  intro j hocc'
  have hchr := (occursAt_iff_getElem ht i).mp hocc
  have hin : i + t.length ≤ s.length := hchr.1
  have hlen := splice_length hin hr
  rw [occursAt_iff_getElem htok j, hlen] at hocc'
  obtain ⟨hl, hg⟩ := hocc'
  by_cases hover : ∃ k, k < tok.length ∧ i ≤ j + k ∧ j + k < i + t.length
  · obtain ⟨k0, hk0, hz1, hz2⟩ := hover
    have htokk : tok[k0]? = some tok[k0] := List.getElem?_eq_getElem hk0
    have h1 := hg k0 hk0
    rw [splice_getElem_mid hin hr hz1 hz2, htokk] at h1
    exact hrdis tok[k0] (List.getElem?_mem h1) (List.getElem?_mem htokk)
  · push_neg at hover
    apply habs j
    rw [occursAt_iff_getElem htok j]
    refine ⟨hl, fun k hk => ?_⟩
    have h1 := hg k hk
    rcases Nat.lt_or_ge (j + k) i with hlt | hge
    · rwa [splice_getElem_lt hin hlt] at h1
    · rwa [splice_getElem_ge hin hr (hover k hk hge)] at h1

theorem not_mem_of_digit {c : Char} (h : isDigitC c = true) {tok : List Char}
    (htok : tok.all (fun x => !(isDigitC x)) = true) : c ∉ tok := by
  intro hm
  have := List.all_eq_true.mp htok c hm
  rw [h] at this
  cases this

theorem normDaysC_id (f : Nat) {y m d : Int} (h1 : 1 ≤ d) (h2 : d ≤ daysInMonthC y m) :
    normDaysC (f + 1) y m d = (y, m, d) := by
  rw [normDaysC, if_neg (by omega), if_neg (by omega)]

theorem mkJsDate_valid {y m d : Int} (hy : 100 ≤ y) (hv : validCivil y m d) :
    mkJsDate y m d 0 0 0 = ⟨y, m, d, 0, 0, 0⟩ := by
  obtain ⟨hm0, hm1, hd1, hd2⟩ := hv
  have hmap : jsYearMap y = y := by
    rw [jsYearMap, if_neg (by simp; omega)]
  have hdiv : m / 12 = 0 := Int.ediv_eq_zero_of_lt hm0 (by omega)
  have hmod : m % 12 = m := Int.emod_eq_of_lt hm0 (by omega)
  unfold mkJsDate
  rw [hmap, hdiv, hmod]
  norm_num
  rw [show (500 : Nat) = 499 + 1 from rfl, normDaysC_id 499 hd1 hd2]
  exact ⟨rfl, rfl, rfl⟩

theorem daysInMonthC_le (y m : Int) : daysInMonthC y m ≤ 31 := by
  unfold daysInMonthC
  split
  · split <;> omega
  · split <;> omega

theorem occursAt_take_of_occursAt {s t : List Char} {j m : Nat} (h : occursAt s t j)
    (hm : m ≤ t.length) : occursAt s (t.take m) j := by
  rw [occursAt] at h ⊢
  rw [List.length_take, Nat.min_eq_left hm, ← h, List.take_take, Nat.min_eq_left hm]

theorem replaceFirst_of_not_contains {s t r : List Char} (h : containsTok s t = false) :
    replaceFirst s t r = s := by
  rw [replaceFirst]
  rw [containsTok] at h
  cases hi : idxOf s t with
  | none => rfl
  | some i => rw [hi] at h; cases h

theorem intRepr_ne_nil {y : Int} (h : 0 ≤ y) : intRepr y ≠ [] := by
  rw [intRepr, if_neg (by omega)]
  exact natDigits_ne_nil _

theorem zones_disjoint {s t1 t2 : List Char} {i1 i2 p : Nat}
    (h1 : occursAt s t1 i1) (h2 : occursAt s t2 i2)
    (ht1 : t1 ≠ []) (ht2 : t2 ≠ [])
    (hdis : ∀ c ∈ t1, c ∉ t2)
    (hp1 : i1 ≤ p) (hp1' : p < i1 + t1.length)
    (hp2 : i2 ≤ p) (hp2' : p < i2 + t2.length) : False := by
  have e1 := ((occursAt_iff_getElem ht1 i1).mp h1).2 (p - i1) (by omega)
  have e2 := ((occursAt_iff_getElem ht2 i2).mp h2).2 (p - i2) (by omega)
  rw [show i1 + (p - i1) = p by omega] at e1
  rw [show i2 + (p - i2) = p by omega] at e2
  have hc1 : t1[p - i1]? = some t1[p - i1] := List.getElem?_eq_getElem (by omega)
  have he : t2[p - i2]? = some t1[p - i1] := by rw [← e2, e1, hc1]
  exact hdis t1[p - i1] (List.getElem?_mem hc1) (List.getElem?_mem he)

set_option maxHeartbeats 1000000 in
/-- C4 (amended): for every date with a four-digit year (1000-9999) and
every pattern containing the tokens YYYY, MM and DD but no name token
(no occurrence of Mon - hence no Month - and no Day, whose replacements
are not length-preserving), parsing the formatted string round-trips:
`parseDate (formatDate d p) p` returns exactly the day of `d` (year,
month and day equal; time fields zero).  Without these restrictions the
claim fails: name-token replacements and short years shift the slice
offsets, as the counterexample shows. -/
theorem formatParse_roundtrip (dt : DateC) (pat : List Char) (now : DateC)
    (hY : containsTok pat yyyyTok = true)
    (hM : containsTok pat mmTok = true)
    (hD : containsTok pat ddTok = true)
    (hMon : containsTok pat monTok = false)
    (hDay : containsTok pat dayTok = false)
    (hy1 : 1000 ≤ dt.year) (hy2 : dt.year ≤ 9999)
    (hv : validCivil dt.year dt.month dt.day) :
    parseDate (formatDate dt pat false) pat false now =
      some ⟨dt.year, dt.month, dt.day, 0, 0, 0⟩ := by
  obtain ⟨hm0, hm1, hd1, hd2⟩ := hv
  have hd31 : dt.day ≤ 31 := le_trans hd2 (daysInMonthC_le _ _)
  -- replacement strings and their shapes
  have hYlen : (intRepr dt.year).length = 4 := intRepr_length4 hy1 hy2
  have hYdig : ∀ c ∈ intRepr dt.year, isDigitC c = true := intRepr_digits (by omega)
  have hM2len : (padStart2 (intRepr (dt.month + 1))).length = 2 :=
    padStart2_intRepr_length (by omega) (by omega)
  have hM2dig : ∀ c ∈ padStart2 (intRepr (dt.month + 1)), isDigitC c = true :=
    padStart2_digits (intRepr_digits (by omega))
  have hD2len : (padStart2 (intRepr dt.day)).length = 2 :=
    padStart2_intRepr_length (by omega) (by omega)
  have hD2dig : ∀ c ∈ padStart2 (intRepr dt.day), isDigitC c = true :=
    padStart2_digits (intRepr_digits (by omega))
  have hYlen' : (intRepr dt.year).length = yyyyTok.length := by rw [hYlen]; rfl
  have hM2len' : (padStart2 (intRepr (dt.month + 1))).length = mmTok.length := by
    rw [hM2len]; rfl
  have hD2len' : (padStart2 (intRepr dt.day)).length = ddTok.length := by
    rw [hD2len]; rfl
  -- token indices in the pattern
  rw [containsTok] at hY hM hD
  obtain ⟨iY, hiY⟩ := Option.isSome_iff_exists.mp hY
  obtain ⟨iM, hiM⟩ := Option.isSome_iff_exists.mp hM
  obtain ⟨iD, hiD⟩ := Option.isSome_iff_exists.mp hD
  have hoccY : occursAt pat yyyyTok iY := idxOf_some_occurs hiY
  have hoccM : occursAt pat mmTok iM := idxOf_some_occurs hiM
  have hoccD : occursAt pat ddTok iD := idxOf_some_occurs hiD
  -- first splice: the year digits
  have hrepl1 : replaceFirst pat yyyyTok (intRepr dt.year) =
      pat.take iY ++ intRepr dt.year ++ pat.drop (iY + yyyyTok.length) := by
    rw [replaceFirst, hiY]
  -- occurrences of MM and DD are unchanged by the year splice
  have htransM : ∀ j,
      occursAt (pat.take iY ++ intRepr dt.year ++ pat.drop (iY + yyyyTok.length)) mmTok j ↔
      occursAt pat mmTok j :=
    occursAt_splice_iff hoccY (by decide) (by decide) hYlen'
      (fun c hc => not_mem_of_digit (hYdig c hc) (by decide)) (by decide)
  have htransD1 : ∀ j,
      occursAt (pat.take iY ++ intRepr dt.year ++ pat.drop (iY + yyyyTok.length)) ddTok j ↔
      occursAt pat ddTok j :=
    occursAt_splice_iff hoccY (by decide) (by decide) hYlen'
      (fun c hc => not_mem_of_digit (hYdig c hc) (by decide)) (by decide)
  obtain ⟨s1, hs1⟩ : ∃ s1, pat.take iY ++ intRepr dt.year ++ pat.drop (iY + yyyyTok.length) = s1 :=
    ⟨_, rfl⟩
  rw [hs1] at hrepl1 htransM htransD1
  have hiM1 : idxOf s1 mmTok = some iM := by rw [idxOf_congr htransM]; exact hiM
  have hoccM1 : occursAt s1 mmTok iM := (htransM iM).mpr hoccM
  -- second splice: the month digits
  have hrepl2 : replaceFirst s1 mmTok (padStart2 (intRepr (dt.month + 1))) =
      s1.take iM ++ padStart2 (intRepr (dt.month + 1)) ++ s1.drop (iM + mmTok.length) := by
    rw [replaceFirst, hiM1]
  have htransD2 : ∀ j,
      occursAt (s1.take iM ++ padStart2 (intRepr (dt.month + 1)) ++
        s1.drop (iM + mmTok.length)) ddTok j ↔ occursAt s1 ddTok j :=
    occursAt_splice_iff hoccM1 (by decide) (by decide) hM2len'
      (fun c hc => not_mem_of_digit (hM2dig c hc) (by decide)) (by decide)
  obtain ⟨s2, hs2⟩ : ∃ s2,
      s1.take iM ++ padStart2 (intRepr (dt.month + 1)) ++ s1.drop (iM + mmTok.length) = s2 :=
    ⟨_, rfl⟩
  rw [hs2] at hrepl2 htransD2
  have hiD2 : idxOf s2 ddTok = some iD := by
    rw [idxOf_congr htransD2, idxOf_congr htransD1]; exact hiD
  have hoccD2 : occursAt s2 ddTok iD := (htransD2 iD).mpr ((htransD1 iD).mpr hoccD)
  -- third splice: the day digits
  have hrepl3 : replaceFirst s2 ddTok (padStart2 (intRepr dt.day)) =
      s2.take iD ++ padStart2 (intRepr dt.day) ++ s2.drop (iD + ddTok.length) := by
    rw [replaceFirst, hiD2]
  obtain ⟨s3, hs3⟩ : ∃ s3,
      s2.take iD ++ padStart2 (intRepr dt.day) ++ s2.drop (iD + ddTok.length) = s3 :=
    ⟨_, rfl⟩
  rw [hs3] at hrepl3
  -- the name tokens occur nowhere, before or after the splices
  have habsMon : ∀ j, ¬ occursAt pat monTok j := containsTok_false_iff.mp hMon
  have habsDay : ∀ j, ¬ occursAt pat dayTok j := containsTok_false_iff.mp hDay
  have habsMonth : ∀ j, ¬ occursAt pat monthTok j := by
    intro j hocc
    apply habsMon j
    have h3 := occursAt_take_of_occursAt hocc (by decide : 3 ≤ monthTok.length)
    rwa [show monthTok.take 3 = monTok by decide] at h3
  have habsMon3 : ∀ j, ¬ occursAt s3 monTok j := by
    rw [← hs3]
    exact not_occurs_splice hoccD2 (by decide) (by decide) hD2len'
      (fun c hc => not_mem_of_digit (hD2dig c hc) (by decide))
      (by rw [← hs2]
          exact not_occurs_splice hoccM1 (by decide) (by decide) hM2len'
            (fun c hc => not_mem_of_digit (hM2dig c hc) (by decide))
            (by rw [← hs1]
                exact not_occurs_splice hoccY (by decide) (by decide) hYlen'
                  (fun c hc => not_mem_of_digit (hYdig c hc) (by decide)) habsMon))
  have habsMonth3 : ∀ j, ¬ occursAt s3 monthTok j := by
    rw [← hs3]
    exact not_occurs_splice hoccD2 (by decide) (by decide) hD2len'
      (fun c hc => not_mem_of_digit (hD2dig c hc) (by decide))
      (by rw [← hs2]
          exact not_occurs_splice hoccM1 (by decide) (by decide) hM2len'
            (fun c hc => not_mem_of_digit (hM2dig c hc) (by decide))
            (by rw [← hs1]
                exact not_occurs_splice hoccY (by decide) (by decide) hYlen'
                  (fun c hc => not_mem_of_digit (hYdig c hc) (by decide)) habsMonth))
  have habsDay3 : ∀ j, ¬ occursAt s3 dayTok j := by
    rw [← hs3]
    exact not_occurs_splice hoccD2 (by decide) (by decide) hD2len'
      (fun c hc => not_mem_of_digit (hD2dig c hc) (by decide))
      (by rw [← hs2]
          exact not_occurs_splice hoccM1 (by decide) (by decide) hM2len'
            (fun c hc => not_mem_of_digit (hM2dig c hc) (by decide))
            (by rw [← hs1]
                exact not_occurs_splice hoccY (by decide) (by decide) hYlen'
                  (fun c hc => not_mem_of_digit (hYdig c hc) (by decide)) habsDay))
  -- the formatted string is exactly s3
  have hfmt : formatDate dt pat false = s3 := by
    rw [formatDate]
    simp only [Bool.false_eq_true, if_false]
    rw [hrepl1, hrepl2, hrepl3,
        replaceFirst_of_not_contains (containsTok_false_iff.mpr habsMonth3),
        replaceFirst_of_not_contains (containsTok_false_iff.mpr habsMon3),
        replaceFirst_of_not_contains (containsTok_false_iff.mpr habsDay3)]
  -- bounds and lengths
  have hchrY := (occursAt_iff_getElem (by decide) iY).mp hoccY
  have hchrM1 := (occursAt_iff_getElem (by decide) iM).mp hoccM1
  have hchrD2 := (occursAt_iff_getElem (by decide) iD).mp hoccD2
  have hinY : iY + yyyyTok.length ≤ pat.length := hchrY.1
  have hinM : iM + mmTok.length ≤ s1.length := hchrM1.1
  have hinD : iD + ddTok.length ≤ s2.length := hchrD2.1
  have hlen1 : s1.length = pat.length := by rw [← hs1]; exact splice_length hinY hYlen'
  have hlen2 : s2.length = s1.length := by rw [← hs2]; exact splice_length hinM hM2len'
  have hlen3 : s3.length = s2.length := by rw [← hs3]; exact splice_length hinD hD2len'
  -- the replaced digits sit at the token indices
  have hgetY : ∀ k, k < yyyyTok.length → s1[iY + k]? = (intRepr dt.year)[k]? := by
    intro k hk
    rw [← hs1, splice_getElem_mid hinY hYlen' (by omega) (by omega)]
    congr 1
    omega
  have hgetM : ∀ k, k < mmTok.length →
      s2[iM + k]? = (padStart2 (intRepr (dt.month + 1)))[k]? := by
    intro k hk
    rw [← hs2, splice_getElem_mid hinM hM2len' (by omega) (by omega)]
    congr 1
    omega
  have hgetD : ∀ k, k < ddTok.length → s3[iD + k]? = (padStart2 (intRepr dt.day))[k]? := by
    intro k hk
    rw [← hs3, splice_getElem_mid hinD hD2len' (by omega) (by omega)]
    congr 1
    omega
  -- the year zone avoids the month zone (in s1 the former holds digits, the latter letters)
  have hdisjYM : ∀ k, k < yyyyTok.length → (iY + k < iM ∨ iM + mmTok.length ≤ iY + k) := by
    intro k hk
    by_contra hcon
    push_neg at hcon
    obtain ⟨h1, h2⟩ := hcon
    have e1 := hgetY k hk
    have e2 := hchrM1.2 (iY + k - iM) (by omega)
    rw [show iM + (iY + k - iM) = iY + k by omega] at e2
    have hkY : k < (intRepr dt.year).length := by rw [hYlen']; exact hk
    have hc : (intRepr dt.year)[k]? = some (intRepr dt.year)[k] := List.getElem?_eq_getElem hkY
    have hcd : isDigitC (intRepr dt.year)[k] = true :=
      hYdig _ (List.getElem?_mem hc)
    have hMc : mmTok[iY + k - iM]? = some 'M' := by
      have hq : iY + k - iM < 2 := by omega
      set q := iY + k - iM with hqd
      interval_cases q <;> rfl
    rw [e1, hc] at e2
    rw [hMc] at e2
    have hM' : (intRepr dt.year)[k] = 'M' := Option.some.inj e2
    rw [hM'] at hcd
    exact absurd hcd (by decide)
  -- the year zone avoids the day zone, and the month zone avoids the day zone
  have hdisjYD : ∀ k, k < yyyyTok.length → (iY + k < iD ∨ iD + ddTok.length ≤ iY + k) := by
    intro k hk
    by_contra hcon
    push_neg at hcon
    obtain ⟨h1, h2⟩ := hcon
    have e1 : s2[iY + k]? = (intRepr dt.year)[k]? := by
      have e0 : s2[iY + k]? = s1[iY + k]? := by
        rw [← hs2]
        rcases hdisjYM k hk with hlt | hge
        · exact splice_getElem_lt hinM hlt
        · exact splice_getElem_ge hinM hM2len' hge
      rw [e0]
      exact hgetY k hk
    have e2 := hchrD2.2 (iY + k - iD) (by omega)
    rw [show iD + (iY + k - iD) = iY + k by omega] at e2
    have hkY : k < (intRepr dt.year).length := by rw [hYlen']; exact hk
    have hc : (intRepr dt.year)[k]? = some (intRepr dt.year)[k] := List.getElem?_eq_getElem hkY
    have hcd : isDigitC (intRepr dt.year)[k] = true := hYdig _ (List.getElem?_mem hc)
    have hDc : ddTok[iY + k - iD]? = some 'D' := by
      have hq : iY + k - iD < 2 := by omega
      set q := iY + k - iD with hqd
      interval_cases q <;> rfl
    rw [e1, hc, hDc] at e2
    have hD' : (intRepr dt.year)[k] = 'D' := Option.some.inj e2
    rw [hD'] at hcd
    exact absurd hcd (by decide)
  have hdisjMD : ∀ k, k < mmTok.length → (iM + k < iD ∨ iD + ddTok.length ≤ iM + k) := by
    intro k hk
    by_contra hcon
    push_neg at hcon
    obtain ⟨h1, h2⟩ := hcon
    have e1 := hgetM k hk
    have e2 := hchrD2.2 (iM + k - iD) (by omega)
    rw [show iD + (iM + k - iD) = iM + k by omega] at e2
    have hkM : k < (padStart2 (intRepr (dt.month + 1))).length := by rw [hM2len']; exact hk
    have hc : (padStart2 (intRepr (dt.month + 1)))[k]? =
        some (padStart2 (intRepr (dt.month + 1)))[k] := List.getElem?_eq_getElem hkM
    have hcd : isDigitC (padStart2 (intRepr (dt.month + 1)))[k] = true :=
      hM2dig _ (List.getElem?_mem hc)
    have hDc : ddTok[iM + k - iD]? = some 'D' := by
      have hq : iM + k - iD < 2 := by omega
      set q := iM + k - iD with hqd
      interval_cases q <;> rfl
    rw [e1, hc, hDc] at e2
    have hD' : (padStart2 (intRepr (dt.month + 1)))[k] = 'D' := Option.some.inj e2
    rw [hD'] at hcd
    exact absurd hcd (by decide)
  -- the three slices of the formatted string
  have hsliceY : sliceAt s3 iY 4 = intRepr dt.year := by
    have ho : occursAt s3 (intRepr dt.year) iY := by
      rw [occursAt_iff_getElem (intRepr_ne_nil (by omega)) iY]
      constructor
      · have h4 : yyyyTok.length = 4 := rfl
        rw [hYlen, hlen3, hlen2, hlen1]
        omega
      · intro k hk
        have hk4 : k < yyyyTok.length := hYlen' ▸ hk
        have e3 : s3[iY + k]? = s2[iY + k]? := by
          rw [← hs3]
          rcases hdisjYD k hk4 with hlt | hge
          · exact splice_getElem_lt hinD hlt
          · exact splice_getElem_ge hinD hD2len' hge
        have e2 : s2[iY + k]? = s1[iY + k]? := by
          rw [← hs2]
          rcases hdisjYM k hk4 with hlt | hge
          · exact splice_getElem_lt hinM hlt
          · exact splice_getElem_ge hinM hM2len' hge
        rw [e3, e2]
        exact hgetY k hk4
    rw [occursAt] at ho
    rw [sliceAt, show (4 : Nat) = (intRepr dt.year).length from hYlen.symm]
    exact ho
  have hsliceM : sliceAt s3 iM 2 = padStart2 (intRepr (dt.month + 1)) := by
    have ho : occursAt s3 (padStart2 (intRepr (dt.month + 1))) iM := by
      rw [occursAt_iff_getElem (padStart2_ne_nil (intRepr_ne_nil (by omega))) iM]
      constructor
      · have h2 : mmTok.length = 2 := rfl
        rw [hM2len, hlen3, hlen2]
        omega
      · intro k hk
        have hk2 : k < mmTok.length := hM2len' ▸ hk
        have e3 : s3[iM + k]? = s2[iM + k]? := by
          rw [← hs3]
          rcases hdisjMD k hk2 with hlt | hge
          · exact splice_getElem_lt hinD hlt
          · exact splice_getElem_ge hinD hD2len' hge
        rw [e3]
        exact hgetM k hk2
    rw [occursAt] at ho
    rw [sliceAt, show (2 : Nat) = (padStart2 (intRepr (dt.month + 1))).length from hM2len.symm]
    exact ho
  have hsliceD : sliceAt s3 iD 2 = padStart2 (intRepr dt.day) := by
    have ho : occursAt s3 (padStart2 (intRepr dt.day)) iD := by
      rw [occursAt_iff_getElem (padStart2_ne_nil (intRepr_ne_nil (by omega))) iD]
      constructor
      · have h2 : ddTok.length = 2 := rfl
        rw [hD2len, hlen3]
        omega
      · intro k hk
        have hk2 : k < ddTok.length := hD2len' ▸ hk
        exact hgetD k hk2
    rw [occursAt] at ho
    rw [sliceAt, show (2 : Nat) = (padStart2 (intRepr dt.day)).length from hD2len.symm]
    exact ho
  -- the formatted string is nonempty
  have hs3ne : s3.isEmpty = false := by
    have hpos : 0 < s3.length := by
      have h4 : yyyyTok.length = 4 := rfl
      rw [hlen3, hlen2, hlen1]
      omega
    cases h3 : s3 with
    | nil => rw [h3] at hpos; simp at hpos
    | cons a l => rfl
  -- run the parser
  rw [hfmt, parseDate, if_neg (by rw [hs3ne]; exact Bool.false_ne_true)]
  simp only [hiY, hiM, hiD, hsliceY, hsliceM, hsliceD, Bool.false_eq_true, if_false,
    parseIntJS_intRepr (by omega : (0 : Int) ≤ dt.year),
    parseIntJS_padStart2_intRepr (by omega : (0 : Int) ≤ dt.month + 1),
    parseIntJS_padStart2_intRepr (by omega : (0 : Int) ≤ dt.day),
    Option.map_some', Int.add_sub_cancel]
  rw [mkJsDate_valid (by omega) ⟨hm0, hm1, hd1, hd2⟩]
  simp

theorem formatParse_roundtrip_witness :
    parseDate (formatDate ⟨2024, 2, 15, 0, 0, 0⟩ ("YYYY-MM-DD".toList) false)
      ("YYYY-MM-DD".toList) false ⟨2000, 0, 1, 0, 0, 0⟩ =
      some ⟨2024, 2, 15, 0, 0, 0⟩ :=
  formatParse_roundtrip ⟨2024, 2, 15, 0, 0, 0⟩ ("YYYY-MM-DD".toList) ⟨2000, 0, 1, 0, 0, 0⟩
    (by decide) (by decide) (by decide) (by decide) (by decide)
    (by decide) (by decide) (by decide)
